import Mathlib

/-
Verification of the aaron-asm assembler/interpreter (Rust sources:
compiler.rs, vm.rs and the tree-type module) against its natural-language
specification.  The Rust code is shallowly embedded: `BigInt` becomes `Int`,
`Vec`/`&str` become `List`, fallible paths become `Option`/`Except`, the raw
`usize` conversion of `BigInt::to_usize` is modelled with an explicit
`2 ^ 64` bound (64-bit target), and the VM loop carries an explicit fuel
argument (the Rust loop may genuinely diverge on looping programs).
-/

namespace Aasm

/- Characters of the source text; Rust iterates over `char`s of a `&str`. -/
abbrev Str := List Char

/- `pub type Number = num_bigint::BigInt;` -/
abbrev Number := Int

/-! ## Tree types (from the tree-type module of the repository) -/

/- `pub enum Index { Direct(Number), Indirect(Number) }` -/
inductive Index where
  | Direct (n : Number)
  | Indirect (n : Number)
deriving DecidableEq

/- `pub enum Value { Immediate, Register, Pointer, Label, ProgramCounter }` -/
inductive Value where
  | Immediate (n : Number)
  | Register (n : Number)
  | Pointer (n : Number)
  | Label (name : Str)
  | ProgramCounter
deriving DecidableEq

/- `pub enum Address { Immediate, Register, ProgramCounter, Label }` -/
inductive Address where
  | Immediate (n : Number)
  | Register (n : Number)
  | ProgramCounter
  | Label (name : Str)
deriving DecidableEq

/- `pub enum Statement { Incr, Decr, Save, Putc, Putn, Halt }` -/
inductive Statement where
  | Incr (index : Index) (value : Value)
  | Decr (index : Index) (address : Address) (value : Value)
  | Save (index : Index) (value : Value)
  | Putc (value : Value)
  | Putn (value : Value)
  | Halt
deriving DecidableEq

/- `pub struct Line { label: Option<String>, statement: Statement }` -/
structure Line where
  label : Option Str
  statement : Statement
deriving DecidableEq

/- `pub struct Program(Vec<Statement>);` -/
abbrev Program := List Statement

/-! ## Label resolution (`collect_labels`, `solve`, `Program::new`) -/

/-
`Ast::collect_labels` builds a `HashMap<&String, Number>` by inserting
`label ↦ line index` in line order; a repeated label overwrites the earlier
entry (last wins).  The map is modelled as its lookup function.
-/
def collectLabels (lines : List Line) : Str → Option Number :=
  lines.enum.foldl
    (fun h p =>
      match p.2.label with
      | some label => fun name => if name = label then some (Int.ofNat p.1) else h name
      | none => h)
    (fun _ => none)

/- `Value::solve(&self, labels, pc)` from the tree-type module. -/
def Value.solve (v : Value) (labels : Str → Option Number) (pc : Nat) : Option Value :=
  match v with
  | .Label n =>
      match labels n with
      | some a => some (.Immediate a)
      | none => none
  | .ProgramCounter => some (.Immediate (Int.ofNat (pc + 1)))
  | _ => some v

/- `Address::solve(&self, labels, pc)` from the tree-type module. -/
def Address.solve (a : Address) (labels : Str → Option Number) (pc : Nat) : Option Address :=
  match a with
  | .Label n =>
      match labels n with
      | some x => some (.Immediate x)
      | none => none
  | .ProgramCounter => some (.Immediate (Int.ofNat (pc + 1)))
  | _ => some a

/-
The per-statement body of the `for (pc, x) in ast.iter().enumerate()` loop in
`Program::new`: indices are cloned unchanged, every `Value`/`Address` operand
goes through `solve`, and a failed lookup aborts with `None` (the `?`).
-/
def solveStatement (labels : Str → Option Number) (pc : Nat) :
    Statement → Option Statement
  | .Decr index address value => do
      let a ← address.solve labels pc
      let v ← value.solve labels pc
      pure (.Decr index a v)
  | .Incr index value => do
      let v ← value.solve labels pc
      pure (.Incr index v)
  | .Save index value => do
      let v ← value.solve labels pc
      pure (.Save index v)
  | .Putc value => do
      let v ← value.solve labels pc
      pure (.Putc v)
  | .Putn value => do
      let v ← value.solve labels pc
      pure (.Putn v)
  | .Halt => some .Halt

/- The loop of `Program::new`, with `pc` the index of the current line. -/
def resolveLines (labels : Str → Option Number) (pc : Nat) :
    List Line → Option (List Statement)
  | [] => some []
  | line :: rest =>
      match solveStatement labels pc line.statement with
      | none => none
      | some s =>
          match resolveLines labels (pc + 1) rest with
          | none => none
          | some tail => some (s :: tail)

/- `Program::new(ast: Ast) -> Option<Program>` -/
def Program.new (ast : List Line) : Option Program :=
  resolveLines (collectLabels ast) 0 ast

/- A `Value` with no unresolved symbolic operand (neither label nor `pc`). -/
def Value.isResolved : Value → Bool
  | .Label _ => false
  | .ProgramCounter => false
  | _ => true

/- An `Address` with no unresolved symbolic operand. -/
def Address.isResolved : Address → Bool
  | .Label _ => false
  | .ProgramCounter => false
  | _ => true

/- A statement all of whose `Value`/`Address` operands are resolved. -/
def Statement.isResolved : Statement → Bool
  | .Incr _ v => v.isResolved
  | .Decr _ a v => a.isResolved && v.isResolved
  | .Save _ v => v.isResolved
  | .Putc v => v.isResolved
  | .Putn v => v.isResolved
  | .Halt => true

/- The lowering relation on one `Value` position as C3 states it. -/
def valuePCLowered (i : Nat) (src out : Value) : Prop :=
  src = .ProgramCounter → out = .Immediate (Int.ofNat (i + 1))

/- The lowering relation on one `Address` position as C3 states it. -/
def addressPCLowered (i : Nat) (src out : Address) : Prop :=
  src = .ProgramCounter → out = .Immediate (Int.ofNat (i + 1))

/-
The lowering relation between a source statement on line `i` and the
resolved statement at program index `i`: same constructor, same index
operand, and every `pc` operand became `Immediate (i + 1)`.
-/
def stmtPCLowered (i : Nat) : Statement → Statement → Prop
  | .Incr idx v, .Incr idx2 v2 => idx2 = idx ∧ valuePCLowered i v v2
  | .Decr idx a v, .Decr idx2 a2 v2 =>
      idx2 = idx ∧ addressPCLowered i a a2 ∧ valuePCLowered i v v2
  | .Save idx v, .Save idx2 v2 => idx2 = idx ∧ valuePCLowered i v v2
  | .Putc v, .Putc v2 => valuePCLowered i v v2
  | .Putn v, .Putn v2 => valuePCLowered i v v2
  | .Halt, .Halt => True
  | _, _ => False

/-! ## Virtual machine (vm.rs) -/

/- `const MEMORY_LIMIT: usize = 100000;` -/
def MEMORY_LIMIT : Nat := 100000

/- `BigInt::to_usize` on a 64-bit target: defined exactly on `[0, 2^64)`. -/
def toUsize (n : Number) : Option Nat :=
  if 0 ≤ n ∧ n < 2 ^ 64 then some n.toNat else none

/- Events written to the output sink (`Putc` writes a char, `Putn` a number). -/
inductive OutEvent where
  | char (n : Number)
  | num (n : Number)
deriving DecidableEq

/- `pub struct MachineState { registers, program_counter, output }` -/
structure MachineState where
  registers : List Number
  program_counter : Number
  output : List OutEvent
deriving DecidableEq

/- `MachineState::new`: `registers: vec![0]`, `program_counter: 0`. -/
def MachineState.new : MachineState :=
  { registers := [0], program_counter := 0, output := [] }

/-
`MachineState::register(&self, num)` (the read path): an index that fails to
convert to `usize` (negative or at least `2 ^ 64`) reads 0, an index beyond
the backing length reads 0, everything else reads the stored cell.  It is
stated on the bare register list; the method merely reads `self.registers`.
-/
def readRegister (registers : List Number) (num : Number) : Number :=
  match toUsize num with
  | some x => if registers.length ≤ x then 0 else registers.getD x 0
  | none => 0

def MachineState.register (s : MachineState) (num : Number) : Number :=
  readRegister s.registers num

/-
`MachineState::register_mut(&mut self, num)` followed by the caller's store:
the Rust method returns `&mut Number` and exits the process for a
non-convertible index or one above `MEMORY_LIMIT`; the model returns the
updated register list, `none` standing for the fatal `exit(5)`.  `f` is the
mutation the caller performs through the returned reference
(`+= v`, `-= v` or `= v`).
-/
def register_mut (registers : List Number) (num : Number) (f : Number → Number) :
    Option (List Number) :=
  match toUsize num with
  | some x =>
      if MEMORY_LIMIT < x then none
      else
        let regs :=
          if registers.length ≤ x then
            registers ++ List.replicate (x + 1 - registers.length) 0
          else registers
        some (regs.set x (f (regs.getD x 0)))
  | none => none

/- `OperandEval<Index>`: `Direct(x) ↦ x`, `Indirect(x) ↦ self.register(x)`. -/
def evalIndex (s : MachineState) : Index → Number
  | .Direct x => x
  | .Indirect x => s.register x

/-
`OperandEval<Value>`: the `_ => panic!("Invalid operand")` arm (reached
exactly on `Value::Label`) is modelled as `none`.
-/
def evalValue (s : MachineState) : Value → Option Number
  | .Immediate x => some x
  | .Register x => some (s.register x)
  | .Pointer x => some (s.register (s.register x))
  | .ProgramCounter => some s.program_counter
  | .Label _ => none

/- `OperandEval<Address>`: likewise, `Address::Label` hits the panic arm. -/
def evalAddress (s : MachineState) : Address → Option Number
  | .Immediate x => some x
  | .Register x => some (s.register x)
  | .ProgramCounter => some s.program_counter
  | .Label _ => none

/- `self.program_counter += 1`, the first action of every non-Halt arm. -/
def advancePC (s : MachineState) : MachineState :=
  { s with program_counter := s.program_counter + 1 }

/- Possible results of `MachineState::run` in the model. -/
inductive Outcome where
  /- the loop broke on `Halt` and returned `self.register(0)` -/
  | halted (r : Number)
  /- `eprintln!("Invalid program counter"); exit(4)` -/
  | invalidPc
  /- the Rust index panic on `program[pc]` when `pc = program.len()` -/
  | indexPanic
  /- `eprintln!("Too big register number"); exit(5)` from `register_mut` -/
  | tooBigRegister
  /- `panic!("Invalid operand")` in an operand evaluator -/
  | invalidOperand
  /- panic of `to_u32().unwrap()` / `from_u32(..).unwrap()` in `Putc` -/
  | putcPanic
  /- artificial: the fuel of the model ran out before the loop ended -/
  | outOfFuel
deriving DecidableEq

/-
One arm of the `match &program[program_counter]` dispatch.  `.ok none` is
`break`, `.ok (some s)` continues the loop with the new state, `.error e`
is a fatal runtime error or panic.
-/
def execStatement (s : MachineState) : Statement → Except Outcome (Option MachineState)
  | .Incr index value =>
      let s1 := advancePC s
      let i := evalIndex s1 index
      if 0 ≤ i then
        match evalValue s1 value with
        | none => .error .invalidOperand
        | some v =>
            match register_mut s1.registers i (fun r => r + v) with
            | none => .error .tooBigRegister
            | some regs => .ok (some { s1 with registers := regs })
      else .ok (some s1)
  | .Decr index address value =>
      let s1 := advancePC s
      let i := evalIndex s1 index
      match evalAddress s1 address with
      | none => .error .invalidOperand
      | some a =>
          match evalValue s1 value with
          | none => .error .invalidOperand
          | some v =>
              if v ≤ s1.register i then
                match register_mut s1.registers i (fun r => r - v) with
                | none => .error .tooBigRegister
                | some regs => .ok (some { s1 with registers := regs })
              else .ok (some { s1 with program_counter := a })
  | .Save index value =>
      let s1 := advancePC s
      let i := evalIndex s1 index
      match evalValue s1 value with
      | none => .error .invalidOperand
      | some v =>
          match register_mut s1.registers i (fun _ => v) with
          | none => .error .tooBigRegister
          | some regs => .ok (some { s1 with registers := regs })
  | .Putc value =>
      let s1 := advancePC s
      match evalValue s1 value with
      | none => .error .invalidOperand
      | some v =>
          if 0 ≤ v ∧ v < 2 ^ 32 then
            if (0xD800 ≤ v ∧ v ≤ 0xDFFF) ∨ 0x110000 ≤ v then .error .putcPanic
            else .ok (some { s1 with output := s1.output ++ [.char v] })
          else .error .putcPanic
  | .Putn value =>
      let s1 := advancePC s
      match evalValue s1 value with
      | none => .error .invalidOperand
      | some v => .ok (some { s1 with output := s1.output ++ [.num v] })
  | .Halt => .ok none

/-
`MachineState::run(&mut self, program)`.  Per iteration: convert the program
counter (`None` and `pc > program.len()` exit with code 4), index the
statement vector (which panics in Rust when `pc = program.len()`), dispatch.
The Nat argument is fuel for the potentially diverging `loop`.
-/
def run (program : Program) : Nat → MachineState → Outcome
  | 0, _ => .outOfFuel
  | fuel + 1, s =>
      match toUsize s.program_counter with
      | none => .invalidPc
      | some pc =>
          if program.length < pc then .invalidPc
          else
            match program.get? pc with
            | none => .indexPanic
            | some stmt =>
                match execStatement s stmt with
                | .error e => e
                | .ok none => .halted (s.register 0)
                | .ok (some s2) => run program fuel s2

/-! ## Parser (compiler.rs) -/

/- `pub enum ParseError` -/
inductive ParseError where
  | InvalidLabel
  | InvalidIdentifier
  | LabelOnly
  | UnknownMnemonic
  | UnclosedBracket
  | ExpectInteger
  | ExpectValue
  | ExtraZero
  | ExtraOperand
  | TooFewArguments
  | ExpectAddress
  | EndOfProgram
deriving DecidableEq

/- `type ParseResult<'a, T> = Result<(T, &'a str), ParseError>;` -/
abbrev ParseResult (T : Type) := Except ParseError (T × Str)

instance exceptDecEq {e a : Type} [DecidableEq e] [DecidableEq a] :
    DecidableEq (Except e a) := fun x y =>
  match x, y with
  | .ok u, .ok v =>
      if h : u = v then .isTrue (by rw [h])
      else .isFalse (fun hc => h (by cases hc; rfl))
  | .error u, .error v =>
      if h : u = v then .isTrue (by rw [h])
      else .isFalse (fun hc => h (by cases hc; rfl))
  | .ok _, .error _ => .isFalse (fun hc => Except.noConfusion hc)
  | .error _, .ok _ => .isFalse (fun hc => Except.noConfusion hc)

/- `fn is_space(ch: char) -> bool` -/
def is_space (ch : Char) : Bool := ch == ' ' || ch == '\t'

/- `fn parse_one(input, predicate) -> Option<(char, &str)>` -/
def parse_one (input : Str) (predicate : Char → Bool) : Option (Char × Str) :=
  match input with
  | [] => none
  | ch :: rest => if predicate ch then some (ch, rest) else none

/- `fn parse_while(input, predicate) -> (&str, &str)` -/
def parse_while (input : Str) (predicate : Char → Bool) : Str × Str :=
  match input with
  | [] => ([], [])
  | ch :: rest =>
      if predicate ch then
        let (a, b) := parse_while rest predicate
        (ch :: a, b)
      else ([], ch :: rest)

/- `fn parse_skip(input, predicate) -> &str` (drop the matching head run) -/
def parse_skip (input : Str) (predicate : Char → Bool) : Str :=
  match input with
  | [] => []
  | ch :: rest => if predicate ch then parse_skip rest predicate else ch :: rest

/-
`fn parse_skip_until(input, predicate) -> &str`: drop up to and including
the first character satisfying the predicate (everything if none does).
-/
def parse_skip_until (input : Str) (predicate : Char → Bool) : Str :=
  match input with
  | [] => []
  | ch :: rest => if predicate ch then rest else parse_skip_until rest predicate

/- `fn skip_space` -/
def skip_space (input : Str) : Str :=
  parse_skip input (fun ch => ch == ' ' || ch == '\t')

/- `fn skip_comment` -/
def skip_comment (input : Str) : Str :=
  parse_skip_until input (fun ch => ch == '\n')

/- `fn parse_label(input) -> ParseResult<Option<String>>` -/
def parse_label (input : Str) : ParseResult (Option Str) :=
  match parse_one input (fun _ => true) with
  | some (ch, _) =>
      if ch.isAlpha then
        let (label, rest) := parse_while input Char.isAlphanum
        .ok (some label, rest)
      else if is_space ch || ch == ';' || ch == '\r' || ch == '\n' then
        .ok (none, input)
      else .error .InvalidLabel
  | none => .ok (none, input)

/-
`fn parse_identifier(input) -> ParseResult<String>`: the leading-letter
check's result is bound to `_` in the source and therefore discarded; the
function returns the leading alphanumeric run unconditionally.
-/
def parse_identifier (input : Str) : ParseResult Str :=
  let _ := (parse_one input Char.isAlpha).elim
    (Except.error ParseError.InvalidIdentifier) (fun p => Except.ok p)
  let (label, rest) := parse_while input Char.isAlphanum
  .ok (label, rest)

/- `enum Mnemonic` -/
inductive Mnemonic where
  | Incr
  | Decr
  | Save
  | Putc
  | Putn
  | Halt

/- `fn parse_mnemonic` -/
def parse_mnemonic (input : Str) : ParseResult Mnemonic :=
  let (mnemonic, rest) := parse_while input Char.isAlphanum
  if mnemonic = "incr".toList then .ok (.Incr, rest)
  else if mnemonic = "decr".toList then .ok (.Decr, rest)
  else if mnemonic = "save".toList then .ok (.Save, rest)
  else if mnemonic = "putc".toList then .ok (.Putc, rest)
  else if mnemonic = "putn".toList then .ok (.Putn, rest)
  else if mnemonic = "halt".toList then .ok (.Halt, rest)
  else .error .UnknownMnemonic

/- `fn skip_extra_field(input) -> Result<&str, ParseError>` -/
def skip_extra_field (input : Str) : Except ParseError Str :=
  let rest := skip_space input
  match rest with
  | [] => .ok rest
  | ch :: _ =>
      if ch == ';' || ch == '\n' || ch == '\r' then .ok (skip_comment rest)
      else .error .ExtraOperand

/- `fn parse_operand_separator` -/
def parse_operand_separator (input : Str) : Except ParseError Str :=
  let rest := skip_space input
  match parse_one rest (fun ch => ch == ',') with
  | none => .error .TooFewArguments
  | some (_, rest2) => .ok (skip_space rest2)

/- `fn parse_integer` -/
def digitsToNat (ds : Str) : Nat :=
  ds.foldl (fun acc c => acc * 10 + (c.toNat - 48)) 0

def parse_integer (input : Str) : ParseResult Number :=
  let sr := (parse_one input (fun ch => ch == '-')).getD ('+', input)
  let sign := sr.1
  let rest := sr.2
  if (match parse_one rest (fun ch => ch == '0') with
      | some (_, rest2) => (parse_one rest2 Char.isDigit).isSome
      | none => false) then
    .error .ExtraZero
  else
    match parse_one rest Char.isDigit with
    | some _ =>
        let nr := parse_while rest Char.isDigit
        let num : Number := Int.ofNat (digitsToNat nr.1)
        .ok (if sign = '-' then -num else num, nr.2)
    | none => .error .ExpectInteger

/- `fn parse_index` -/
def parse_index (input : Str) : ParseResult Index :=
  match parse_one input (fun ch => ch == '[') with
  | some (_, rest) =>
      let rest := skip_space rest
      match parse_integer rest with
      | .error e => .error e
      | .ok (num, rest) =>
          let rest := skip_space rest
          match parse_one rest (fun ch => ch == ']') with
          | some (_, rest) => .ok (.Indirect num, rest)
          | none => .error .UnclosedBracket
  | none =>
      match parse_integer input with
      | .error e => .error e
      | .ok (num, rest) => .ok (.Direct num, rest)

/- `fn parse_address` -/
def parse_address (input : Str) : ParseResult Address :=
  match parse_one input (fun ch => ch == '[') with
  | some (_, rest) =>
      let rest := skip_space rest
      match parse_integer rest with
      | .error e => .error e
      | .ok (num, rest) =>
          let rest := skip_space rest
          match parse_one rest (fun ch => ch == ']') with
          | some (_, rest) => .ok (.Register num, rest)
          | none => .error .UnclosedBracket
  | none =>
      match parse_integer input with
      | .ok (num, rest) => .ok (.Immediate num, rest)
      | .error _ =>
          match parse_identifier input with
          | .ok (ident, rest) =>
              if ident = "pc".toList then .ok (.ProgramCounter, rest)
              else .ok (.Label ident, rest)
          | .error _ => .error .ExpectAddress

/- `fn parse_value` -/
def parse_value (input : Str) : ParseResult Value :=
  match parse_one input (fun ch => ch == '[') with
  | some (_, rest) =>
      match parse_one rest (fun ch => ch == '[') with
      | some (_, rest) =>
          let rest := skip_space rest
          match parse_integer rest with
          | .error e => .error e
          | .ok (num, rest) =>
              let rest := skip_space rest
              match parse_one rest (fun ch => ch == ']') with
              | none => .error .UnclosedBracket
              | some (_, rest) =>
                  match parse_one rest (fun ch => ch == ']') with
                  | none => .error .UnclosedBracket
                  | some (_, rest) => .ok (.Pointer num, rest)
      | none =>
          let rest := skip_space rest
          match parse_integer rest with
          | .error e => .error e
          | .ok (num, rest) =>
              let rest := skip_space rest
              match parse_one rest (fun ch => ch == ']') with
              | none => .error .UnclosedBracket
              | some (_, rest) => .ok (.Register num, rest)
  | none =>
      match parse_integer input with
      | .ok (num, rest) => .ok (.Immediate num, rest)
      | .error _ =>
          match parse_identifier input with
          | .ok (ident, rest) =>
              if ident = "pc".toList then .ok (.ProgramCounter, rest)
              else .ok (.Label ident, rest)
          | .error _ => .error .ExpectValue

/- `fn parse_incr_operand`; note the one-operand default branch returns
`rest` directly, without going through `skip_extra_field`. -/
def parse_incr_operand (input : Str) : ParseResult Statement :=
  match parse_index input with
  | .error e => .error e
  | .ok (index, rest) =>
      match parse_operand_separator rest with
      | .error _ => .ok (.Incr index (Value.Immediate 1), rest)
      | .ok rest2 =>
          match parse_value rest2 with
          | .error e => .error e
          | .ok (value, rest3) =>
              let rest4 := skip_space rest3
              match skip_extra_field rest4 with
              | .error e => .error e
              | .ok rest5 => .ok (.Incr index value, rest5)

/- `fn parse_decr_operand` -/
def parse_decr_operand (input : Str) : ParseResult Statement :=
  match parse_index input with
  | .error e => .error e
  | .ok (index, rest) =>
      match parse_operand_separator rest with
      | .error e => .error e
      | .ok rest =>
          match parse_address rest with
          | .error e => .error e
          | .ok (address, rest) =>
              match parse_operand_separator rest with
              | .error _ =>
                  match skip_extra_field rest with
                  | .error e => .error e
                  | .ok rest2 =>
                      .ok (.Decr index address (Value.Immediate 1), rest2)
              | .ok rest2 =>
                  match parse_value rest2 with
                  | .error e => .error e
                  | .ok (value, rest3) =>
                      match skip_extra_field rest3 with
                      | .error e => .error e
                      | .ok rest4 => .ok (.Decr index address value, rest4)

/- `fn parse_save_operand` -/
def parse_save_operand (input : Str) : ParseResult Statement :=
  match parse_index input with
  | .error e => .error e
  | .ok (index, rest) =>
      match parse_operand_separator rest with
      | .error e => .error e
      | .ok rest =>
          match parse_value rest with
          | .error e => .error e
          | .ok (value, rest) =>
              match skip_extra_field rest with
              | .error e => .error e
              | .ok rest => .ok (.Save index value, rest)

/- `fn parse_putc_operand` -/
def parse_putc_operand (input : Str) : ParseResult Statement :=
  match parse_value input with
  | .error e => .error e
  | .ok (value, rest) =>
      match skip_extra_field rest with
      | .error e => .error e
      | .ok rest => .ok (.Putc value, rest)

/- `fn parse_putn_operand` -/
def parse_putn_operand (input : Str) : ParseResult Statement :=
  match parse_value input with
  | .error e => .error e
  | .ok (value, rest) =>
      match skip_extra_field rest with
      | .error e => .error e
      | .ok rest => .ok (.Putn value, rest)

/- `fn parse_halt_operand` -/
def parse_halt_operand (input : Str) : ParseResult Statement :=
  match skip_extra_field input with
  | .error e => .error e
  | .ok rest => .ok (.Halt, rest)

/- `fn parse_command` -/
def parse_command (input : Str) : ParseResult Statement :=
  match parse_mnemonic input with
  | .error e => .error e
  | .ok (mnemonic, rest) =>
      let rest := skip_space rest
      match mnemonic with
      | .Incr => parse_incr_operand rest
      | .Decr => parse_decr_operand rest
      | .Save => parse_save_operand rest
      | .Putc => parse_putc_operand rest
      | .Putn => parse_putn_operand rest
      | .Halt => parse_halt_operand rest

/-
`fn parse_line`.  The Rust function recurses past comment-only and blank
lines; the Nat argument is termination fuel for that recursion.  Each
recursive call strictly shortens the input (`parse_line_aux_rest_lt`
below), so any fuel above the input length is enough
(`parse_line_aux_fuel`); `parse_line` instantiates it that way.
-/
def parse_line_aux : Nat → Str → ParseResult Line
  | 0, _ => .error .EndOfProgram
  | fuel + 1, input =>
      match parse_label input with
      | .error e => .error e
      | .ok (label, rest1) =>
          match skip_space rest1 with
          | ch :: tl =>
              if ch == ';' || ch == '\n' then
                match label with
                | none => parse_line_aux fuel (skip_comment (ch :: tl))
                | some _ => .error .LabelOnly
              else
                match parse_command (ch :: tl) with
                | .error e => .error e
                | .ok (command, rest2) => .ok (⟨label, command⟩, rest2)
          | [] => .error .EndOfProgram

def parse_line (input : Str) : ParseResult Line :=
  parse_line_aux (input.length + 1) input

/-
`fn parse`: the loop collecting lines until `EndOfProgram`.  As above, the
Nat argument is fuel; each parsed line strictly shortens the input, so
`input.length + 1` is enough.
-/
def parse_aux : Nat → Str → Except ParseError (List Line)
  | 0, _ => .ok []
  | fuel + 1, input =>
      match parse_line_aux (fuel + 1) input with
      | .ok (line, rest) =>
          match parse_aux fuel rest with
          | .ok lines => .ok (line :: lines)
          | .error e => .error e
      | .error .EndOfProgram => .ok []
      | .error e => .error e

def parse (input : Str) : Except ParseError (List Line) :=
  parse_aux (input.length + 1) input

/- The three parse errors that C10 says the parser can never return: the
two operand-syntax errors and the discarded identifier check. -/
def operandSyntaxError (e : ParseError) : Prop :=
  e = .ExpectValue ∨ e = .ExpectAddress ∨ e = .InvalidIdentifier

/-! ## Printers (the `fmt::Display` implementations) -/

/- The digit characters of the decimal printing of a `Nat`, most
significant first (`BigInt`'s `Display` for the non-negative part). -/
def digitChar (d : Nat) : Char := Char.ofNat (48 + d)

def natDec (n : Nat) : Str :=
  if h : n < 10 then [digitChar n]
  else natDec (n / 10) ++ [digitChar (n % 10)]
termination_by n
decreasing_by omega

/- `BigInt`'s `Display`: optional minus sign, then decimal digits. -/
def printNumber (n : Int) : Str :=
  if n < 0 then '-' :: natDec n.natAbs else natDec n.natAbs

/- `impl fmt::Display for Index` -/
def print_index : Index → Str
  | .Direct n => printNumber n
  | .Indirect n => '[' :: (printNumber n ++ [']'])

/- `impl fmt::Display for Value` -/
def print_value : Value → Str
  | .Immediate n => printNumber n
  | .Register n => '[' :: (printNumber n ++ [']'])
  | .Pointer n => '[' :: '[' :: (printNumber n ++ [']', ']'])
  | .Label s => s
  | .ProgramCounter => ['p', 'c']

/- `impl fmt::Display for Address` -/
def print_address : Address → Str
  | .Immediate n => printNumber n
  | .Register n => '[' :: (printNumber n ++ [']'])
  | .Label s => s
  | .ProgramCounter => ['p', 'c']

/- `impl fmt::Display for Statement`; the literal fragments `incr ` etc.
are written as explicit character lists. -/
def print_statement : Statement → Str
  | .Incr i v =>
      ['i', 'n', 'c', 'r', ' '] ++ print_index i ++ [',', ' '] ++ print_value v
  | .Decr i a v =>
      ['d', 'e', 'c', 'r', ' '] ++ print_index i ++ [',', ' '] ++ print_address a
        ++ [',', ' '] ++ print_value v
  | .Save i v =>
      ['s', 'a', 'v', 'e', ' '] ++ print_index i ++ [',', ' '] ++ print_value v
  | .Putc v => ['p', 'u', 't', 'c', ' '] ++ print_value v
  | .Putn v => ['p', 'u', 't', 'n', ' '] ++ print_value v
  | .Halt => ['h', 'a', 'l', 't']

/- `impl fmt::Display for Program`: one statement per line. -/
def printProgram (p : List Statement) : Str :=
  (p.map (fun st => print_statement st ++ ['\n'])).join

/- The canonical print with a single space prepended to each line (so that
the parser does not read the leading mnemonic as a line label). -/
def printProgramIndented (p : List Statement) : Str :=
  (p.map (fun st => ' ' :: (print_statement st ++ ['\n']))).join

/- The AST that parsing a printed resolved program should produce: one
label-free line per statement. -/
def toLines (p : List Statement) : List Line :=
  p.map (fun st => ⟨none, st⟩)

/-! ## Supporting lemmas about the register file -/

lemma getD_set_self (l : List Int) (n : Nat) (a : Int) (h : n < l.length) :
    (l.set n a).getD n 0 = a := by
  rw [List.getD_eq_getD_get?, List.get?_set_eq_of_lt a h, Option.getD_some]

lemma getD_set_ne (l : List Int) (m n : Nat) (a : Int) (h : m ≠ n) :
    (l.set m a).getD n 0 = l.getD n 0 := by
  rw [List.getD_eq_getD_get?, List.get?_set_ne a l h, ← List.getD_eq_getD_get?]

lemma getD_replicate_zero (r j : Nat) : (List.replicate r (0 : Int)).getD j 0 = 0 := by
  rcases lt_or_le j r with h | h
  · rw [List.getD_eq_getElem _ _ (by simpa using h), List.getElem_replicate]
  · rw [List.getD_eq_default _ _ (by simpa using h)]

lemma memory_limit_lt : (MEMORY_LIMIT : Int) < 2 ^ 64 := by norm_num [MEMORY_LIMIT]

lemma toUsize_some (n : Int) (h0 : 0 ≤ n) (h1 : n < 2 ^ 64) :
    toUsize n = some n.toNat := by
  unfold toUsize; rw [if_pos ⟨h0, h1⟩]

lemma toUsize_none_of_neg (n : Int) (h : n < 0) : toUsize n = none := by
  unfold toUsize
  rw [if_neg]
  rintro ⟨h0, _⟩
  exact absurd h0 (not_le.mpr h)

lemma readRegister_neg (regs : List Int) (n : Int) (h : n < 0) :
    readRegister regs n = 0 := by
  unfold readRegister; rw [toUsize_none_of_neg n h]

/- The backing list grown as `register_mut` grows it, read at any position. -/
lemma grow_getD (regs : List Int) (x j : Nat) :
    (if regs.length ≤ x then regs ++ List.replicate (x + 1 - regs.length) 0
     else regs).getD j 0
      = if j < regs.length then regs.getD j 0 else 0 := by
  split
  · rcases lt_or_le j regs.length with h | h
    · rw [List.getD_append _ _ _ _ h, if_pos h]
    · rw [List.getD_append_right _ _ _ _ h, if_neg (by omega), getD_replicate_zero]
  · rcases lt_or_le j regs.length with h | h
    · rw [if_pos h]
    · rw [if_neg (by omega), List.getD_eq_default _ _ h]

lemma grow_length (regs : List Int) (x : Nat) :
    (if regs.length ≤ x then regs ++ List.replicate (x + 1 - regs.length) 0
     else regs).length = max regs.length (x + 1) := by
  split <;> simp <;> omega

/- `register_mut` succeeds exactly as growth followed by an update in place. -/
lemma register_mut_eq (regs : List Int) (i : Int) (f : Int → Int)
    (h0 : 0 ≤ i) (hL : i ≤ (MEMORY_LIMIT : Int)) :
    register_mut regs i f =
      some ((if regs.length ≤ i.toNat then
               regs ++ List.replicate (i.toNat + 1 - regs.length) 0
             else regs).set i.toNat (f (readRegister regs i))) := by
  have h64 : i < 2 ^ 64 := lt_of_le_of_lt hL memory_limit_lt
  have hlim : ¬ MEMORY_LIMIT < i.toNat := by
    simp only [MEMORY_LIMIT] at hL ⊢
    omega
  simp only [register_mut, toUsize_some i h0 h64, if_neg hlim, readRegister,
    grow_getD]
  rcases lt_or_le i.toNat regs.length with h | h
  · simp only [if_pos h, if_neg (not_le.mpr h)]
  · simp only [if_pos h, if_neg (not_lt.mpr h)]

lemma register_mut_neg (regs : List Int) (i : Int) (f : Int → Int)
    (h : i < 0) : register_mut regs i f = none := by
  simp only [register_mut, toUsize_none_of_neg i h]

lemma register_mut_big (regs : List Int) (i : Int) (f : Int → Int)
    (h : (MEMORY_LIMIT : Int) < i) : register_mut regs i f = none := by
  rcases lt_or_le i (2 ^ 64) with h64 | h64
  · have h0 : 0 ≤ i := le_trans (by norm_num [MEMORY_LIMIT]) (le_of_lt h)
    have hi : MEMORY_LIMIT < i.toNat := by
      simp only [MEMORY_LIMIT] at h ⊢
      omega
    simp only [register_mut, toUsize_some i h0 h64, if_pos hi]
  · simp only [register_mut, toUsize]
    rw [if_neg (by rintro ⟨_, hc⟩; exact absurd hc (not_lt.mpr h64))]

lemma register_mut_length (regs : List Int) (i : Int) (f : Int → Int)
    (regs2 : List Int) (h0 : 0 ≤ i) (hL : i ≤ (MEMORY_LIMIT : Int))
    (h : register_mut regs i f = some regs2) :
    regs2.length = max regs.length (i.toNat + 1) := by
  rw [register_mut_eq regs i f h0 hL] at h
  cases h
  rw [List.length_set, grow_length]

lemma readRegister_lt (l : List Int) (i : Int) (h0 : 0 ≤ i) (h64 : i < 2 ^ 64)
    (h : i.toNat < l.length) : readRegister l i = l.getD i.toNat 0 := by
  simp only [readRegister, toUsize_some i h0 h64]
  rw [if_neg (by omega)]

lemma readRegister_ge (l : List Int) (i : Int) (h0 : 0 ≤ i) (h64 : i < 2 ^ 64)
    (h : l.length ≤ i.toNat) : readRegister l i = 0 := by
  simp only [readRegister, toUsize_some i h0 h64]
  rw [if_pos h]

lemma readRegister_bad (l : List Int) (i : Int) (h : toUsize i = none) :
    readRegister l i = 0 := by
  simp only [readRegister, h]

lemma read_register_mut_self (regs : List Int) (i : Int) (f : Int → Int)
    (regs2 : List Int) (h0 : 0 ≤ i) (hL : i ≤ (MEMORY_LIMIT : Int))
    (h : register_mut regs i f = some regs2) :
    readRegister regs2 i = f (readRegister regs i) := by
  have h64 : i < 2 ^ 64 := lt_of_le_of_lt hL memory_limit_lt
  rw [register_mut_eq regs i f h0 hL] at h
  cases h
  have hlen : i.toNat <
      (if regs.length ≤ i.toNat then
        regs ++ List.replicate (i.toNat + 1 - regs.length) 0
       else regs).length := by
    rw [grow_length]; omega
  rw [readRegister_lt _ i h0 h64 (by rw [List.length_set]; omega),
    getD_set_self _ _ _ hlen]

lemma read_register_mut_other (regs : List Int) (i : Int) (f : Int → Int)
    (regs2 : List Int) (j : Int) (h0 : 0 ≤ i) (hL : i ≤ (MEMORY_LIMIT : Int))
    (h : register_mut regs i f = some regs2) (hne : j ≠ i) :
    readRegister regs2 j = readRegister regs j := by
  have h64 : i < 2 ^ 64 := lt_of_le_of_lt hL memory_limit_lt
  rw [register_mut_eq regs i f h0 hL] at h
  cases h
  cases hj : toUsize j with
  | none => rw [readRegister_bad _ _ hj, readRegister_bad _ _ hj]
  | some y =>
      have hy : 0 ≤ j ∧ j < 2 ^ 64 := by
        unfold toUsize at hj
        by_cases hc : 0 ≤ j ∧ j < 2 ^ 64
        · exact hc
        · rw [if_neg hc] at hj; cases hj
      obtain ⟨hj0, hj64⟩ := hy
      have hyne : i.toNat ≠ j.toNat := fun hcon => hne (by omega)
      have hset : ∀ a : Int,
          ((if regs.length ≤ i.toNat then
              regs ++ List.replicate (i.toNat + 1 - regs.length) 0
            else regs).set i.toNat a).getD j.toNat 0
            = if j.toNat < regs.length then regs.getD j.toNat 0 else 0 := by
        intro a
        rw [getD_set_ne _ _ _ _ hyne, grow_getD]
      rcases lt_or_le j.toNat regs.length with hc | hc
      · rw [readRegister_lt _ j hj0 hj64
            (by rw [List.length_set, grow_length]; omega),
          readRegister_lt _ j hj0 hj64 hc, hset, if_pos hc]
      · rw [readRegister_ge _ j hj0 hj64 hc]
        rcases lt_or_le j.toNat
            ((if regs.length ≤ i.toNat then
                regs ++ List.replicate (i.toNat + 1 - regs.length) 0
              else regs).set i.toNat (f (readRegister regs i))).length with hd | hd
        · rw [readRegister_lt _ j hj0 hj64 hd, hset, if_neg (by omega)]
        · rw [readRegister_ge _ j hj0 hj64 hd]

/-! ## Claim theorems about the virtual machine -/

/--
C6: every write that reaches `register_mut` requires `0 ≤ i ≤ MEMORY_LIMIT`
(with `MEMORY_LIMIT = 100000`); a negative index or one above the limit is a
fatal runtime error (`none`, the modelled `exit(5)`), and a write beyond the
current backing length first grows the backing with zero-initialized entries
up to and including index `i` before updating cell `i`.
-/
theorem register_mut_bounds :
    MEMORY_LIMIT = 100000 ∧
    ∀ (regs : List Int) (i : Int) (f : Int → Int),
      (i < 0 → register_mut regs i f = none) ∧
      ((MEMORY_LIMIT : Int) < i → register_mut regs i f = none) ∧
      (0 ≤ i → i ≤ (MEMORY_LIMIT : Int) →
        ∃ regs2, register_mut regs i f = some regs2 ∧
          regs2.length = max regs.length (i.toNat + 1) ∧
          readRegister regs2 i = f (readRegister regs i) ∧
          (∀ j, j ≠ i → readRegister regs2 j = readRegister regs j) ∧
          (regs.length ≤ i.toNat →
            regs2 = (regs ++ List.replicate (i.toNat + 1 - regs.length) 0).set
              i.toNat (f 0))) := by
  refine ⟨rfl, fun regs i f => ⟨register_mut_neg regs i f,
    register_mut_big regs i f, fun h0 hL => ?_⟩⟩
  have h64 : i < 2 ^ 64 := lt_of_le_of_lt hL memory_limit_lt
  have hmut := register_mut_eq regs i f h0 hL
  refine ⟨_, hmut, register_mut_length regs i f _ h0 hL hmut,
    read_register_mut_self regs i f _ h0 hL hmut,
    fun j hj => read_register_mut_other regs i f _ j h0 hL hmut hj, ?_⟩
  intro hlen
  rw [if_pos hlen, readRegister_ge regs i h0 h64 hlen]

/-- Witness for C6 at concrete inputs. -/
theorem register_mut_bounds_witness :
    register_mut [(5 : Int)] (-1) (fun r => r) = none ∧
    register_mut [(5 : Int)] 100001 (fun r => r) = none ∧
    ∃ regs2, register_mut [(5 : Int)] 3 (fun r => r + 7) = some regs2 ∧
      readRegister regs2 3 = 7 := by
  obtain ⟨hM, h⟩ := register_mut_bounds
  refine ⟨(h [5] (-1) _).1 (by decide), (h [5] 100001 _).2.1 (by decide), ?_⟩
  obtain ⟨regs2, he, -, hself, -, -⟩ := (h [5] 3 (fun r => r + 7)).2.2
    (by decide) (by decide)
  refine ⟨regs2, he, hself.trans (by decide)⟩

/--
C7: `Incr(index, value)` first advances the program counter by 1; with
`i = eval(index)` and `v = eval(value)` in the advanced state, a
non-negative `i` (within the write bound) adds `v` to register `i` leaving
all other registers unchanged, while a negative `i` is silently ignored,
leaving every register unchanged.
-/
theorem incr_semantics (s : MachineState) (index : Index) (value : Value)
    (s1 : MachineState) (i : Int) (hs1 : s1 = advancePC s)
    (hi : i = evalIndex s1 index) :
    (i < 0 → execStatement s (.Incr index value) = .ok (some s1)) ∧
    (∀ v : Int, evalValue s1 value = some v → 0 ≤ i → i ≤ (MEMORY_LIMIT : Int) →
      ∃ regs2, execStatement s (.Incr index value)
          = .ok (some { s1 with registers := regs2 }) ∧
        readRegister regs2 i = s1.register i + v ∧
        ∀ j, j ≠ i → readRegister regs2 j = s1.register j) := by
  subst hs1
  subst hi
  constructor
  · intro hneg
    simp only [execStatement]
    rw [if_neg (not_le.mpr hneg)]
  · intro v hv h0 hL
    have hmut := register_mut_eq (advancePC s).registers
      (evalIndex (advancePC s) index) (fun r => r + v) h0 hL
    refine ⟨_, ?_, read_register_mut_self _ _ _ _ h0 hL hmut,
      fun j hj => read_register_mut_other _ _ _ _ j h0 hL hmut hj⟩
    simp only [execStatement, if_pos h0, hv, hmut]

/-- Witness for C7 at concrete inputs: a write and an ignored negative index. -/
theorem incr_semantics_witness :
    execStatement MachineState.new (.Incr (Index.Direct (-2)) (Value.Immediate 1))
        = .ok (some { registers := [0], program_counter := 1, output := [] }) ∧
    ∃ regs2,
      execStatement MachineState.new (.Incr (Index.Direct 0) (Value.Immediate 5))
          = .ok (some { registers := regs2, program_counter := 1, output := [] }) ∧
      readRegister regs2 0 = 5 := by
  constructor
  · exact (incr_semantics MachineState.new (Index.Direct (-2)) (Value.Immediate 1)
      _ _ rfl rfl).1 (by decide)
  · obtain ⟨regs2, he, hself, -⟩ :=
      (incr_semantics MachineState.new (Index.Direct 0) (Value.Immediate 5)
        _ _ rfl rfl).2 5 (by decide) (by decide) (by decide)
    exact ⟨regs2, he, hself.trans (by decide)⟩

/--
C4: `Decr(index, address, value)` first advances the program counter by 1,
then evaluates `i`, `a`, `v` in the advanced state; if `register[i] ≥ v`
(signed comparison) it subtracts `v` from register `i` and continues with
the advanced program counter (other registers unchanged), otherwise it
overwrites the program counter with `a`.
-/
theorem decr_semantics (s : MachineState) (index : Index) (address : Address)
    (value : Value) (s1 : MachineState) (i a v : Int)
    (hs1 : s1 = advancePC s) (hi : i = evalIndex s1 index)
    (ha : evalAddress s1 address = some a) (hv : evalValue s1 value = some v) :
    (v ≤ s1.register i → 0 ≤ i → i ≤ (MEMORY_LIMIT : Int) →
      ∃ regs2, execStatement s (.Decr index address value)
          = .ok (some { s1 with registers := regs2 }) ∧
        readRegister regs2 i = s1.register i - v ∧
        ∀ j, j ≠ i → readRegister regs2 j = s1.register j) ∧
    (s1.register i < v →
      execStatement s (.Decr index address value)
        = .ok (some { s1 with program_counter := a })) := by
  subst hs1
  subst hi
  constructor
  · intro hge h0 hL
    have hmut := register_mut_eq (advancePC s).registers
      (evalIndex (advancePC s) index) (fun r => r - v) h0 hL
    refine ⟨_, ?_, read_register_mut_self _ _ _ _ h0 hL hmut,
      fun j hj => read_register_mut_other _ _ _ _ j h0 hL hmut hj⟩
    simp only [execStatement, ha, hv, if_pos hge, hmut]
  · intro hlt
    simp only [execStatement, ha, hv, if_neg (not_le.mpr hlt)]

/-- Witness for C4 at concrete inputs: a taken subtraction and a taken jump. -/
theorem decr_semantics_witness :
    (∃ regs2,
      execStatement { registers := [9], program_counter := 0, output := [] }
          (.Decr (Index.Direct 0) (Address.Immediate 4) (Value.Immediate 3))
          = .ok (some { registers := regs2, program_counter := 1, output := [] }) ∧
      readRegister regs2 0 = 6) ∧
    execStatement { registers := [2], program_counter := 0, output := [] }
        (.Decr (Index.Direct 0) (Address.Immediate 4) (Value.Immediate 3))
        = .ok (some { registers := [2], program_counter := 4, output := [] }) := by
  constructor
  · obtain ⟨regs2, he, hself, -⟩ :=
      (decr_semantics { registers := [9], program_counter := 0, output := [] }
        (Index.Direct 0) (Address.Immediate 4) (Value.Immediate 3)
        _ _ 4 3 rfl rfl rfl rfl).1 (by decide) (by decide) (by decide)
    exact ⟨regs2, he, hself.trans (by decide)⟩
  · exact (decr_semantics { registers := [2], program_counter := 0, output := [] }
      (Index.Direct 0) (Address.Immediate 4) (Value.Immediate 3)
      _ _ 4 3 rfl rfl rfl rfl).2 (by decide)

/-! ## Claim theorems about the resolver -/

lemma value_solve_isResolved (v : Value) (labels : Str → Option Number) (pc : Nat)
    (v2 : Value) (h : v.solve labels pc = some v2) : v2.isResolved = true := by
  cases v with
  | Label n =>
      simp only [Value.solve] at h
      cases hl : labels n with
      | none => rw [hl] at h; cases h
      | some a => rw [hl] at h; cases h; rfl
  | ProgramCounter => cases h; rfl
  | Immediate n => cases h; rfl
  | Register n => cases h; rfl
  | Pointer n => cases h; rfl

lemma address_solve_isResolved (a : Address) (labels : Str → Option Number) (pc : Nat)
    (a2 : Address) (h : a.solve labels pc = some a2) : a2.isResolved = true := by
  cases a with
  | Label n =>
      simp only [Address.solve] at h
      cases hl : labels n with
      | none => rw [hl] at h; cases h
      | some x => rw [hl] at h; cases h; rfl
  | ProgramCounter => cases h; rfl
  | Immediate n => cases h; rfl
  | Register n => cases h; rfl

lemma solveStatement_isResolved (labels : Str → Option Number) (pc : Nat)
    (st out : Statement) (h : solveStatement labels pc st = some out) :
    out.isResolved = true := by
  cases st with
  | Decr index address value =>
      simp only [solveStatement, Option.bind_eq_bind, Option.bind_eq_some] at h
      obtain ⟨a, ha, v, hv, hout⟩ := h
      cases hout
      simp only [Statement.isResolved, Bool.and_eq_true]
      exact ⟨address_solve_isResolved _ _ _ _ ha, value_solve_isResolved _ _ _ _ hv⟩
  | Incr index value =>
      simp only [solveStatement, Option.bind_eq_bind, Option.bind_eq_some] at h
      obtain ⟨v, hv, hout⟩ := h
      cases hout
      exact value_solve_isResolved _ _ _ _ hv
  | Save index value =>
      simp only [solveStatement, Option.bind_eq_bind, Option.bind_eq_some] at h
      obtain ⟨v, hv, hout⟩ := h
      cases hout
      exact value_solve_isResolved _ _ _ _ hv
  | Putc value =>
      simp only [solveStatement, Option.bind_eq_bind, Option.bind_eq_some] at h
      obtain ⟨v, hv, hout⟩ := h
      cases hout
      exact value_solve_isResolved _ _ _ _ hv
  | Putn value =>
      simp only [solveStatement, Option.bind_eq_bind, Option.bind_eq_some] at h
      obtain ⟨v, hv, hout⟩ := h
      cases hout
      exact value_solve_isResolved _ _ _ _ hv
  | Halt => cases h; rfl

lemma resolveLines_isResolved (labels : Str → Option Number) :
    ∀ (lines : List Line) (pc : Nat) (out : List Statement),
      resolveLines labels pc lines = some out →
      ∀ st ∈ out, st.isResolved = true := by
  intro lines
  induction lines with
  | nil => intro pc out h; cases h; intro st hst; cases hst
  | cons line rest ih =>
      intro pc out h
      simp only [resolveLines] at h
      cases hs : solveStatement labels pc line.statement with
      | none => rw [hs] at h; cases h
      | some s =>
          rw [hs] at h
          cases ht : resolveLines labels (pc + 1) rest with
          | none => rw [ht] at h; cases h
          | some tail =>
              rw [ht] at h
              cases h
              intro st hst
              rcases List.mem_cons.mp hst with hst | hst
              · cases hst; exact solveStatement_isResolved _ _ _ _ hs
              · exact ih (pc + 1) tail ht st hst

/--
C2: every program produced by `Program::new` contains no `Label` and no
`ProgramCounter` operand in any `Value` or `Address` position.
-/
theorem program_new_no_label_no_pc (ast : List Line) (p : Program)
    (hp : Program.new ast = some p) : ∀ st ∈ p, st.isResolved = true :=
  resolveLines_isResolved (collectLabels ast) ast 0 p hp

/-- Witness for C2 at a concrete AST that uses a label and `pc`. -/
theorem program_new_no_label_no_pc_witness :
    ∃ p, Program.new
        [⟨some ['a'], .Putn (Value.Label ['a'])⟩, ⟨none, .Putc Value.ProgramCounter⟩]
        = some p ∧ ∀ st ∈ p, st.isResolved = true := by
  refine ⟨[.Putn (Value.Immediate 0), .Putc (Value.Immediate 2)], by decide,
    program_new_no_label_no_pc
      [⟨some ['a'], .Putn (Value.Label ['a'])⟩, ⟨none, .Putc Value.ProgramCounter⟩]
      [.Putn (Value.Immediate 0), .Putc (Value.Immediate 2)] (by decide)⟩

lemma value_solve_pcLowered (v : Value) (labels : Str → Option Number) (pc : Nat)
    (v2 : Value) (h : v.solve labels pc = some v2) : valuePCLowered pc v v2 := by
  cases v with
  | ProgramCounter => intro _; cases h; rfl
  | Label n => intro hcon; cases hcon
  | Immediate n => intro hcon; cases hcon
  | Register n => intro hcon; cases hcon
  | Pointer n => intro hcon; cases hcon

lemma address_solve_pcLowered (a : Address) (labels : Str → Option Number) (pc : Nat)
    (a2 : Address) (h : a.solve labels pc = some a2) : addressPCLowered pc a a2 := by
  cases a with
  | ProgramCounter => intro _; cases h; rfl
  | Label n => intro hcon; cases hcon
  | Immediate n => intro hcon; cases hcon
  | Register n => intro hcon; cases hcon

lemma solveStatement_pcLowered (labels : Str → Option Number) (pc : Nat)
    (st out : Statement) (h : solveStatement labels pc st = some out) :
    stmtPCLowered pc st out := by
  cases st with
  | Decr index address value =>
      simp only [solveStatement, Option.bind_eq_bind, Option.bind_eq_some] at h
      obtain ⟨a, ha, v, hv, hout⟩ := h
      cases hout
      exact ⟨rfl, address_solve_pcLowered _ _ _ _ ha, value_solve_pcLowered _ _ _ _ hv⟩
  | Incr index value =>
      simp only [solveStatement, Option.bind_eq_bind, Option.bind_eq_some] at h
      obtain ⟨v, hv, hout⟩ := h
      cases hout
      exact ⟨rfl, value_solve_pcLowered _ _ _ _ hv⟩
  | Save index value =>
      simp only [solveStatement, Option.bind_eq_bind, Option.bind_eq_some] at h
      obtain ⟨v, hv, hout⟩ := h
      cases hout
      exact ⟨rfl, value_solve_pcLowered _ _ _ _ hv⟩
  | Putc value =>
      simp only [solveStatement, Option.bind_eq_bind, Option.bind_eq_some] at h
      obtain ⟨v, hv, hout⟩ := h
      cases hout
      exact value_solve_pcLowered _ _ _ _ hv
  | Putn value =>
      simp only [solveStatement, Option.bind_eq_bind, Option.bind_eq_some] at h
      obtain ⟨v, hv, hout⟩ := h
      cases hout
      exact value_solve_pcLowered _ _ _ _ hv
  | Halt => cases h; trivial

lemma resolveLines_pcLowered (labels : Str → Option Number) :
    ∀ (lines : List Line) (pc : Nat) (out : List Statement),
      resolveLines labels pc lines = some out →
      ∀ (k : Nat) (line : Line), lines.get? k = some line →
        ∃ st, out.get? k = some st ∧ stmtPCLowered (pc + k) line.statement st := by
  intro lines
  induction lines with
  | nil => intro pc out h k line hk; cases hk
  | cons first rest ih =>
      intro pc out h k line hk
      simp only [resolveLines] at h
      cases hs : solveStatement labels pc first.statement with
      | none => rw [hs] at h; cases h
      | some s =>
          rw [hs] at h
          cases ht : resolveLines labels (pc + 1) rest with
          | none => rw [ht] at h; cases h
          | some tail =>
              rw [ht] at h
              cases h
              cases k with
              | zero =>
                  cases hk
                  exact ⟨s, rfl, solveStatement_pcLowered _ _ _ _ hs⟩
              | succ k2 =>
                  obtain ⟨st, hst, hrel⟩ := ih (pc + 1) tail ht k2 line hk
                  refine ⟨st, hst, ?_⟩
                  have : pc + 1 + k2 = pc + (k2 + 1) := by omega
                  rwa [this] at hrel

/--
C3: for every AST line at zero-based index `i`, the resolver produces the
statement at program index `i` with every `ProgramCounter` operand (in
`Value` or `Address` position) lowered to `Immediate (i + 1)`.
-/
theorem program_new_pc_lowered (ast : List Line) (p : Program) (i : Nat)
    (line : Line) (hp : Program.new ast = some p) (hline : ast.get? i = some line) :
    ∃ st, p.get? i = some st ∧ stmtPCLowered i line.statement st := by
  have h := resolveLines_pcLowered (collectLabels ast) ast 0 p hp i line hline
  simpa using h

/-- Witness for C3: `pc` on line 1 becomes `Immediate 2`. -/
theorem program_new_pc_lowered_witness :
    ∃ st, ([Statement.Halt, Statement.Putn (Value.Immediate 2)] : Program).get? 1
        = some st ∧
      stmtPCLowered 1 (Statement.Putn Value.ProgramCounter) st := by
  obtain ⟨st, hst, hrel⟩ := program_new_pc_lowered
    [⟨none, .Halt⟩, ⟨none, .Putn Value.ProgramCounter⟩]
    [.Halt, .Putn (Value.Immediate 2)] 1 ⟨none, .Putn Value.ProgramCounter⟩
    (by decide) (by decide)
  exact ⟨st, hst, hrel⟩

lemma evalValue_isSome_of_resolved (s : MachineState) (v : Value)
    (h : v.isResolved = true) : ∃ n, evalValue s v = some n := by
  cases v with
  | Label n => cases h
  | Immediate n => exact ⟨n, rfl⟩
  | Register n => exact ⟨_, rfl⟩
  | Pointer n => exact ⟨_, rfl⟩
  | ProgramCounter => exact ⟨_, rfl⟩

lemma evalAddress_isSome_of_resolved (s : MachineState) (a : Address)
    (h : a.isResolved = true) : ∃ n, evalAddress s a = some n := by
  cases a with
  | Label n => cases h
  | Immediate n => exact ⟨n, rfl⟩
  | Register n => exact ⟨_, rfl⟩
  | ProgramCounter => exact ⟨_, rfl⟩

lemma execStatement_no_invalid_operand (s : MachineState) (st : Statement)
    (h : st.isResolved = true) :
    execStatement s st ≠ .error Outcome.invalidOperand := by
  cases st with
  | Incr index value =>
      obtain ⟨v, hv⟩ := evalValue_isSome_of_resolved (advancePC s) value h
      simp only [execStatement, hv]
      split
      · cases hm : register_mut (advancePC s).registers
            (evalIndex (advancePC s) index) (fun r => r + v) <;> simp [hm]
      · simp
  | Decr index address value =>
      simp only [Statement.isResolved, Bool.and_eq_true] at h
      obtain ⟨a, ha⟩ := evalAddress_isSome_of_resolved (advancePC s) address h.1
      obtain ⟨v, hv⟩ := evalValue_isSome_of_resolved (advancePC s) value h.2
      simp only [execStatement, ha, hv]
      split
      · cases hm : register_mut (advancePC s).registers
            (evalIndex (advancePC s) index) (fun r => r - v) <;> simp [hm]
      · simp
  | Save index value =>
      obtain ⟨v, hv⟩ := evalValue_isSome_of_resolved (advancePC s) value h
      simp only [execStatement, hv]
      cases hm : register_mut (advancePC s).registers
          (evalIndex (advancePC s) index) (fun _ => v) <;> simp [hm]
  | Putc value =>
      obtain ⟨v, hv⟩ := evalValue_isSome_of_resolved (advancePC s) value h
      simp only [execStatement, hv]
      split
      · split <;> simp
      · simp
  | Putn value =>
      obtain ⟨v, hv⟩ := evalValue_isSome_of_resolved (advancePC s) value h
      simp only [execStatement, hv]
      simp
  | Halt => simp [execStatement]

/--
C9: on any program produced by the resolver, the `Invalid operand` panic
branches of the operand evaluators (reached only on a `Label` operand) are
unreachable during `run`, whatever the fuel and the starting state.
-/
theorem run_no_invalid_operand (ast : List Line) (p : Program)
    (hp : Program.new ast = some p) :
    ∀ (fuel : Nat) (s : MachineState), run p fuel s ≠ Outcome.invalidOperand := by
  have hres : ∀ st ∈ p, st.isResolved = true :=
    resolveLines_isResolved (collectLabels ast) ast 0 p hp
  intro fuel
  induction fuel with
  | zero => intro s; simp [run]
  | succ n ih =>
      intro s
      simp only [run]
      cases hu : toUsize s.program_counter with
      | none => simp
      | some pc =>
          simp only []
          split
          · simp
          · cases hget : p.get? pc with
            | none => simp
            | some stmt =>
                simp only []
                have hst : stmt.isResolved = true := hres stmt (List.get?_mem hget)
                cases hex : execStatement s stmt with
                | error e =>
                    simp only []
                    intro hcon
                    cases hcon
                    exact execStatement_no_invalid_operand s stmt hst hex
                | ok o =>
                    cases o with
                    | none => simp
                    | some s2 => simpa using ih s2

/-- Witness for C9 at a concrete resolved program. -/
theorem run_no_invalid_operand_witness :
    run [Statement.Putn (Value.Immediate 1)] 3 MachineState.new
      ≠ Outcome.invalidOperand :=
  run_no_invalid_operand [⟨none, .Putn Value.ProgramCounter⟩]
    [.Putn (Value.Immediate 1)] (by decide) 3 MachineState.new

/--
C1 (evidence for the code bug): the claim says a program counter equal to
`program.length` terminates execution normally with the contents of register
0, but in the code the guard only rejects `pc > program.length`, and
`program[pc]` with `pc = program.length` is an out-of-bounds vector index —
a panic, not a normal return.  The other parts of the claim hold: `Halt`
returns register 0, and a negative or too-large program counter exits with
the invalid-program-counter error.
-/
theorem run_termination_behavior :
    run [Statement.Incr (Index.Direct 0) (Value.Immediate 1)] 2 MachineState.new
        = Outcome.indexPanic ∧
    run [Statement.Halt] 1 { registers := [7], program_counter := 0, output := [] }
        = Outcome.halted 7 ∧
    run [Statement.Halt] 1 { registers := [0], program_counter := 2, output := [] }
        = Outcome.invalidPc ∧
    run [Statement.Halt] 1 { registers := [0], program_counter := -1, output := [] }
        = Outcome.invalidPc := by
  refine ⟨by decide, by decide, by decide, by decide⟩

/-! ## Parser error inventories -/

lemma parse_identifier_ok (input : Str) :
    parse_identifier input = .ok (parse_while input Char.isAlphanum) := rfl

lemma parse_integer_error (input : Str) (e : ParseError)
    (h : parse_integer input = .error e) : e = .ExtraZero ∨ e = .ExpectInteger := by
  unfold parse_integer at h
  simp only [] at h
  split at h
  · cases h; left; rfl
  · split at h
    · cases h
    · cases h; right; rfl

lemma parse_index_error (input : Str) (e : ParseError)
    (h : parse_index input = .error e) :
    e = .ExtraZero ∨ e = .ExpectInteger ∨ e = .UnclosedBracket := by
  unfold parse_index at h
  simp only [] at h
  split at h
  · split at h
    · cases h
      rcases parse_integer_error _ _ (by assumption) with h2 | h2
      · left; exact h2
      · right; left; exact h2
    · split at h
      · cases h
      · cases h; right; right; rfl
  · split at h
    · cases h
      rcases parse_integer_error _ _ (by assumption) with h2 | h2
      · left; exact h2
      · right; left; exact h2
    · cases h

lemma parse_value_error (input : Str) (e : ParseError)
    (h : parse_value input = .error e) :
    e = .ExtraZero ∨ e = .ExpectInteger ∨ e = .UnclosedBracket := by
  unfold parse_value at h
  simp only [] at h
  split at h
  · split at h
    · split at h
      · cases h
        rcases parse_integer_error _ _ (by assumption) with h2 | h2
        · left; exact h2
        · right; left; exact h2
      · split at h
        · cases h; right; right; rfl
        · split at h
          · cases h; right; right; rfl
          · cases h
    · split at h
      · cases h
        rcases parse_integer_error _ _ (by assumption) with h2 | h2
        · left; exact h2
        · right; left; exact h2
      · split at h
        · cases h; right; right; rfl
        · cases h
  · split at h
    · cases h
    · rw [parse_identifier_ok] at h
      rcases hw : parse_while input Char.isAlphanum with ⟨ident, rest⟩
      rw [hw] at h
      simp only [] at h
      split at h <;> cases h

lemma parse_address_error (input : Str) (e : ParseError)
    (h : parse_address input = .error e) :
    e = .ExtraZero ∨ e = .ExpectInteger ∨ e = .UnclosedBracket := by
  unfold parse_address at h
  simp only [] at h
  split at h
  · split at h
    · cases h
      rcases parse_integer_error _ _ (by assumption) with h2 | h2
      · left; exact h2
      · right; left; exact h2
    · split at h
      · cases h
      · cases h; right; right; rfl
  · split at h
    · cases h
    · rw [parse_identifier_ok] at h
      rcases hw : parse_while input Char.isAlphanum with ⟨ident, rest⟩
      rw [hw] at h
      simp only [] at h
      split at h <;> cases h

lemma parse_label_error (input : Str) (e : ParseError)
    (h : parse_label input = .error e) : e = .InvalidLabel := by
  unfold parse_label at h
  simp only [] at h
  split at h
  · split at h
    · cases h
    · split at h
      · cases h
      · cases h; rfl
  · cases h

lemma parse_mnemonic_error (input : Str) (e : ParseError)
    (h : parse_mnemonic input = .error e) : e = .UnknownMnemonic := by
  unfold parse_mnemonic at h
  simp only [] at h
  split at h
  · cases h
  · split at h
    · cases h
    · split at h
      · cases h
      · split at h
        · cases h
        · split at h
          · cases h
          · split at h
            · cases h
            · cases h; rfl

lemma parse_operand_separator_error (input : Str) (e : ParseError)
    (h : parse_operand_separator input = .error e) : e = .TooFewArguments := by
  unfold parse_operand_separator at h
  simp only [] at h
  split at h
  · cases h; rfl
  · cases h

lemma skip_extra_field_error (input : Str) (e : ParseError)
    (h : skip_extra_field input = .error e) : e = .ExtraOperand := by
  unfold skip_extra_field at h
  simp only [] at h
  split at h
  · cases h
  · split at h
    · cases h
    · cases h; rfl

lemma parse_incr_operand_error (input : Str) (e : ParseError)
    (h : parse_incr_operand input = .error e) : ¬ operandSyntaxError e := by
  unfold parse_incr_operand at h
  simp only [] at h
  split at h
  · cases h
    rcases parse_index_error _ _ (by assumption) with h2 | h2 | h2 <;>
      (subst h2; rintro (hc | hc | hc) <;> cases hc)
  · split at h
    · cases h
    · split at h
      · cases h
        rcases parse_value_error _ _ (by assumption) with h2 | h2 | h2 <;>
          (subst h2; rintro (hc | hc | hc) <;> cases hc)
      · split at h
        · cases h
          have h2 := skip_extra_field_error _ _ (by assumption)
          subst h2; rintro (hc | hc | hc) <;> cases hc
        · cases h

lemma parse_decr_operand_error (input : Str) (e : ParseError)
    (h : parse_decr_operand input = .error e) : ¬ operandSyntaxError e := by
  unfold parse_decr_operand at h
  split at h
  · cases h
    rcases parse_index_error _ _ (by assumption) with h2 | h2 | h2 <;>
      (subst h2; rintro (hc | hc | hc) <;> cases hc)
  · split at h
    · cases h
      have h2 := parse_operand_separator_error _ _ (by assumption)
      subst h2; rintro (hc | hc | hc) <;> cases hc
    · split at h
      · cases h
        rcases parse_address_error _ _ (by assumption) with h2 | h2 | h2 <;>
          (subst h2; rintro (hc | hc | hc) <;> cases hc)
      · split at h
        · split at h
          · cases h
            have h2 := skip_extra_field_error _ _ (by assumption)
            subst h2; rintro (hc | hc | hc) <;> cases hc
          · cases h
        · split at h
          · cases h
            rcases parse_value_error _ _ (by assumption) with h2 | h2 | h2 <;>
              (subst h2; rintro (hc | hc | hc) <;> cases hc)
          · split at h
            · cases h
              have h2 := skip_extra_field_error _ _ (by assumption)
              subst h2; rintro (hc | hc | hc) <;> cases hc
            · cases h

lemma parse_save_operand_error (input : Str) (e : ParseError)
    (h : parse_save_operand input = .error e) : ¬ operandSyntaxError e := by
  unfold parse_save_operand at h
  split at h
  · cases h
    rcases parse_index_error _ _ (by assumption) with h2 | h2 | h2 <;>
      (subst h2; rintro (hc | hc | hc) <;> cases hc)
  · split at h
    · cases h
      have h2 := parse_operand_separator_error _ _ (by assumption)
      subst h2; rintro (hc | hc | hc) <;> cases hc
    · split at h
      · cases h
        rcases parse_value_error _ _ (by assumption) with h2 | h2 | h2 <;>
          (subst h2; rintro (hc | hc | hc) <;> cases hc)
      · split at h
        · cases h
          have h2 := skip_extra_field_error _ _ (by assumption)
          subst h2; rintro (hc | hc | hc) <;> cases hc
        · cases h

lemma parse_putc_operand_error (input : Str) (e : ParseError)
    (h : parse_putc_operand input = .error e) : ¬ operandSyntaxError e := by
  unfold parse_putc_operand at h
  split at h
  · cases h
    rcases parse_value_error _ _ (by assumption) with h2 | h2 | h2 <;>
      (subst h2; rintro (hc | hc | hc) <;> cases hc)
  · split at h
    · cases h
      have h2 := skip_extra_field_error _ _ (by assumption)
      subst h2; rintro (hc | hc | hc) <;> cases hc
    · cases h

lemma parse_putn_operand_error (input : Str) (e : ParseError)
    (h : parse_putn_operand input = .error e) : ¬ operandSyntaxError e := by
  unfold parse_putn_operand at h
  split at h
  · cases h
    rcases parse_value_error _ _ (by assumption) with h2 | h2 | h2 <;>
      (subst h2; rintro (hc | hc | hc) <;> cases hc)
  · split at h
    · cases h
      have h2 := skip_extra_field_error _ _ (by assumption)
      subst h2; rintro (hc | hc | hc) <;> cases hc
    · cases h

lemma parse_halt_operand_error (input : Str) (e : ParseError)
    (h : parse_halt_operand input = .error e) : ¬ operandSyntaxError e := by
  unfold parse_halt_operand at h
  split at h
  · cases h
    have h2 := skip_extra_field_error _ _ (by assumption)
    subst h2; rintro (hc | hc | hc) <;> cases hc
  · cases h

lemma parse_command_error (input : Str) (e : ParseError)
    (h : parse_command input = .error e) : ¬ operandSyntaxError e := by
  unfold parse_command at h
  simp only [] at h
  split at h
  · cases h
    have h2 := parse_mnemonic_error _ _ (by assumption)
    subst h2; rintro (hc | hc | hc) <;> cases hc
  · split at h
    · exact parse_incr_operand_error _ _ h
    · exact parse_decr_operand_error _ _ h
    · exact parse_save_operand_error _ _ h
    · exact parse_putc_operand_error _ _ h
    · exact parse_putn_operand_error _ _ h
    · exact parse_halt_operand_error _ _ h

lemma parse_line_aux_error (fuel : Nat) (input : Str) (e : ParseError)
    (h : parse_line_aux fuel input = .error e) : ¬ operandSyntaxError e := by
  induction fuel generalizing input with
  | zero =>
      cases h
      rintro (hc | hc | hc) <;> cases hc
  | succ n ih =>
      unfold parse_line_aux at h
      split at h
      · cases h
        have h2 := parse_label_error _ _ (by assumption)
        subst h2; rintro (hc | hc | hc) <;> cases hc
      · split at h
        · split at h
          · split at h
            · exact ih _ h
            · cases h
              rintro (hc | hc | hc) <;> cases hc
          · split at h
            · cases h
              exact parse_command_error _ _ (by assumption)
            · cases h
        · cases h
          rintro (hc | hc | hc) <;> cases hc

lemma parse_aux_error (fuel : Nat) (input : Str) (e : ParseError)
    (h : parse_aux fuel input = .error e) : ¬ operandSyntaxError e := by
  induction fuel generalizing input with
  | zero => cases h
  | succ n ih =>
      unfold parse_aux at h
      split at h
      · split at h
        · cases h
        · cases h
          exact ih _ (by assumption)
      · cases h
      · cases h
        exact parse_line_aux_error _ _ _ (by assumption)

/-!
## Fuel adequacy for the parser model

The Rust `parse_line` and `parse` recursions terminate because every
recursive call strictly shortens the remaining input.  The fueled model
therefore computes the same result for any fuel above the input length; in
particular the `input.length + 1` used by `parse_line` and `parse` is
enough, so the model is not cut short by its fuel.
-/

lemma parse_while_append_eq (input : Str) (p : Char → Bool) :
    (parse_while input p).1 ++ (parse_while input p).2 = input := by
  induction input with
  | nil => rfl
  | cons c t ih =>
      by_cases h : p c
      · rcases hw : parse_while t p with ⟨a, b⟩
        rw [hw] at ih
        simp [parse_while, h, hw, ih]
      · simp [parse_while, h]

lemma parse_while_snd_length (input : Str) (p : Char → Bool) :
    (parse_while input p).2.length ≤ input.length := by
  conv_rhs => rw [← parse_while_append_eq input p]
  rw [List.length_append]
  omega

lemma parse_while_snd_lt (input : Str) (p : Char → Bool)
    (h : (parse_while input p).1 ≠ []) :
    (parse_while input p).2.length < input.length := by
  have := parse_while_append_eq input p
  have hlen : (parse_while input p).1.length + (parse_while input p).2.length
      = input.length := by
    rw [← List.length_append, this]
  have h1 : (parse_while input p).1.length ≠ 0 := by
    intro hc
    exact h (List.length_eq_zero.mp hc)
  omega

lemma parse_one_length (input : Str) (p : Char → Bool) (c : Char) (r : Str)
    (h : parse_one input p = some (c, r)) : r.length < input.length := by
  cases input with
  | nil => cases h
  | cons d t =>
      rw [show parse_one (d :: t) p = if p d then some (d, t) else none
        from rfl] at h
      by_cases hp : p d
      · rw [if_pos hp] at h
        cases h
        simp
      · rw [if_neg hp] at h
        cases h

lemma parse_skip_length (input : Str) (p : Char → Bool) :
    (parse_skip input p).length ≤ input.length := by
  induction input with
  | nil => simp [parse_skip]
  | cons c t ih =>
      unfold parse_skip
      split
      · exact le_trans ih (by simp)
      · simp

lemma skip_space_length (input : Str) : (skip_space input).length ≤ input.length :=
  parse_skip_length input _

lemma parse_skip_until_length (input : Str) (p : Char → Bool) :
    (parse_skip_until input p).length ≤ input.length := by
  induction input with
  | nil => simp [parse_skip_until]
  | cons c t ih =>
      unfold parse_skip_until
      split
      · simp
      · exact le_trans ih (by simp)

lemma skip_comment_length (input : Str) :
    (skip_comment input).length ≤ input.length :=
  parse_skip_until_length input _

lemma skip_comment_lt (c : Char) (t : Str) :
    (skip_comment (c :: t)).length < (c :: t).length := by
  show (parse_skip_until (c :: t) _).length < _
  unfold parse_skip_until
  split
  · simp
  · have := parse_skip_until_length t (fun ch => ch == '\n')
    simp only [List.length_cons]
    omega

lemma parse_label_length (input : Str) (l : Option Str) (r : Str)
    (h : parse_label input = .ok (l, r)) : r.length ≤ input.length := by
  unfold parse_label at h
  split at h
  · split at h
    · cases h
      exact parse_while_snd_length input _
    · split at h
      · cases h
        exact le_refl _
      · cases h
  · cases h
    exact le_refl _

lemma parse_integer_length (input : Str) (n : Number) (r : Str)
    (h : parse_integer input = .ok (n, r)) : r.length ≤ input.length := by
  unfold parse_integer at h
  simp only [] at h
  cases hp : parse_one input (fun ch => ch == '-') with
  | none =>
      rw [hp] at h
      simp only [Option.getD_none] at h
      split at h
      · cases h
      · split at h
        · cases h
          exact parse_while_snd_length input _
        · cases h
  | some pr =>
      rw [hp] at h
      simp only [Option.getD_some] at h
      split at h
      · cases h
      · split at h
        · cases h
          refine le_trans (parse_while_snd_length pr.2 _) ?_
          exact le_of_lt (parse_one_length input _ pr.1 pr.2 (by rw [hp]))
        · cases h

lemma parse_index_length (input : Str) (i : Index) (r : Str)
    (h : parse_index input = .ok (i, r)) : r.length ≤ input.length := by
  unfold parse_index at h
  split at h
  · rename_i ch rest0 hp
    have hplen : rest0.length < input.length := parse_one_length input _ ch rest0 hp
    simp only [] at h
    split at h
    · cases h
    · rename_i num rest2 hint
      split at h
      · rename_i ch2 rest3 hp2
        cases h
        have h1 : rest2.length ≤ (skip_space rest0).length :=
          parse_integer_length _ _ _ hint
        have h2 := parse_one_length (skip_space rest2) _ _ _ hp2
        have h3 := skip_space_length rest0
        have h4 := skip_space_length rest2
        omega
      · cases h
  · split at h
    · cases h
    · cases h
      exact parse_integer_length input _ _ (by assumption)

lemma parse_value_length (input : Str) (v : Value) (r : Str)
    (h : parse_value input = .ok (v, r)) : r.length ≤ input.length := by
  unfold parse_value at h
  split at h
  · rename_i ch rest0 hp
    have hp0 : rest0.length < input.length := parse_one_length input _ _ _ hp
    split at h
    · rename_i ch1 rest1 hp1
      have hp1l : rest1.length < rest0.length := parse_one_length rest0 _ _ _ hp1
      simp only [] at h
      split at h
      · cases h
      · rename_i num rest2 hint
        have hil : rest2.length ≤ (skip_space rest1).length :=
          parse_integer_length _ _ _ hint
        split at h
        · cases h
        · rename_i ch2 rest3 hp2
          have hp2l : rest3.length < (skip_space rest2).length :=
            parse_one_length _ _ _ _ hp2
          split at h
          · cases h
          · rename_i ch3 rest4 hp3
            cases h
            have hp3l := parse_one_length rest3 _ _ _ hp3
            have hs1 := skip_space_length rest1
            have hs2 := skip_space_length rest2
            omega
    · simp only [] at h
      split at h
      · cases h
      · rename_i num rest2 hint
        have hil : rest2.length ≤ (skip_space rest0).length :=
          parse_integer_length _ _ _ hint
        split at h
        · cases h
        · rename_i ch2 rest3 hp2
          cases h
          have hp2l := parse_one_length (skip_space rest2) _ _ _ hp2
          have hs1 := skip_space_length rest0
          have hs2 := skip_space_length rest2
          omega
  · split at h
    · cases h
      exact parse_integer_length input _ _ (by assumption)
    · split at h
      · rename_i ident rest hid
        have hpair : parse_while input Char.isAlphanum = (ident, rest) := by
          have h0 := (parse_identifier_ok input).symm.trans hid
          injection h0
        split at h <;> cases h <;>
          (rw [show r = (parse_while input Char.isAlphanum).2 from by rw [hpair]]
           exact parse_while_snd_length input _)
      · cases h

lemma parse_address_length (input : Str) (a : Address) (r : Str)
    (h : parse_address input = .ok (a, r)) : r.length ≤ input.length := by
  unfold parse_address at h
  split at h
  · rename_i ch rest0 hp
    have hp0 : rest0.length < input.length := parse_one_length input _ _ _ hp
    simp only [] at h
    split at h
    · cases h
    · rename_i num rest2 hint
      have hil : rest2.length ≤ (skip_space rest0).length :=
        parse_integer_length _ _ _ hint
      split at h
      · rename_i ch2 rest3 hp2
        cases h
        have hp2l := parse_one_length (skip_space rest2) _ _ _ hp2
        have hs1 := skip_space_length rest0
        have hs2 := skip_space_length rest2
        omega
      · cases h
  · split at h
    · cases h
      exact parse_integer_length input _ _ (by assumption)
    · split at h
      · rename_i ident rest hid
        have hpair : parse_while input Char.isAlphanum = (ident, rest) := by
          have h0 := (parse_identifier_ok input).symm.trans hid
          injection h0
        split at h <;> cases h <;>
          (rw [show r = (parse_while input Char.isAlphanum).2 from by rw [hpair]]
           exact parse_while_snd_length input _)
      · cases h

lemma parse_operand_separator_length (input : Str) (r : Str)
    (h : parse_operand_separator input = .ok r) : r.length ≤ input.length := by
  unfold parse_operand_separator at h
  simp only [] at h
  split at h
  · cases h
  · rename_i ch rest2 hp
    cases h
    have h1 := parse_one_length (skip_space input) _ _ _ hp
    have h2 := skip_space_length input
    have h3 := skip_space_length rest2
    omega

lemma skip_extra_field_length (input : Str) (r : Str)
    (h : skip_extra_field input = .ok r) : r.length ≤ input.length := by
  unfold skip_extra_field at h
  simp only [] at h
  split at h
  · cases h
    exact skip_space_length input
  · split at h
    · cases h
      refine le_trans (skip_comment_length _) (skip_space_length input)
    · cases h

lemma parse_incr_operand_length (input : Str) (st : Statement) (r : Str)
    (h : parse_incr_operand input = .ok (st, r)) : r.length ≤ input.length := by
  unfold parse_incr_operand at h
  split at h
  · cases h
  · rename_i index rest1 hidx
    have h1 : rest1.length ≤ input.length := parse_index_length _ _ _ hidx
    split at h
    · cases h
      exact h1
    · rename_i rest2 hsep
      have h2 : rest2.length ≤ rest1.length :=
        parse_operand_separator_length _ _ hsep
      split at h
      · cases h
      · rename_i value rest3 hval
        have h3 : rest3.length ≤ rest2.length := parse_value_length _ _ _ hval
        simp only [] at h
        split at h
        · cases h
        · rename_i rest5 hef
          cases h
          have h4 := skip_extra_field_length _ _ hef
          have h5 := skip_space_length rest3
          omega

lemma parse_decr_operand_length (input : Str) (st : Statement) (r : Str)
    (h : parse_decr_operand input = .ok (st, r)) : r.length ≤ input.length := by
  unfold parse_decr_operand at h
  split at h
  · cases h
  · rename_i index rest1 hidx
    have h1 : rest1.length ≤ input.length := parse_index_length _ _ _ hidx
    split at h
    · cases h
    · rename_i rest2 hsep
      have h2 : rest2.length ≤ rest1.length :=
        parse_operand_separator_length _ _ hsep
      split at h
      · cases h
      · rename_i address rest3 haddr
        have h3 : rest3.length ≤ rest2.length := parse_address_length _ _ _ haddr
        split at h
        · split at h
          · cases h
          · rename_i rest4 hef
            cases h
            have h4 := skip_extra_field_length _ _ hef
            omega
        · rename_i rest4 hsep2
          have h4 : rest4.length ≤ rest3.length :=
            parse_operand_separator_length _ _ hsep2
          split at h
          · cases h
          · rename_i value rest5 hval
            have h5 : rest5.length ≤ rest4.length := parse_value_length _ _ _ hval
            split at h
            · cases h
            · rename_i rest6 hef
              cases h
              have h6 := skip_extra_field_length _ _ hef
              omega

lemma parse_save_operand_length (input : Str) (st : Statement) (r : Str)
    (h : parse_save_operand input = .ok (st, r)) : r.length ≤ input.length := by
  unfold parse_save_operand at h
  split at h
  · cases h
  · rename_i index rest1 hidx
    have h1 : rest1.length ≤ input.length := parse_index_length _ _ _ hidx
    split at h
    · cases h
    · rename_i rest2 hsep
      have h2 : rest2.length ≤ rest1.length :=
        parse_operand_separator_length _ _ hsep
      split at h
      · cases h
      · rename_i value rest3 hval
        have h3 : rest3.length ≤ rest2.length := parse_value_length _ _ _ hval
        split at h
        · cases h
        · rename_i rest4 hef
          cases h
          have h4 := skip_extra_field_length _ _ hef
          omega

lemma parse_putc_operand_length (input : Str) (st : Statement) (r : Str)
    (h : parse_putc_operand input = .ok (st, r)) : r.length ≤ input.length := by
  unfold parse_putc_operand at h
  split at h
  · cases h
  · rename_i value rest1 hval
    have h1 : rest1.length ≤ input.length := parse_value_length _ _ _ hval
    split at h
    · cases h
    · rename_i rest2 hef
      cases h
      have h2 := skip_extra_field_length _ _ hef
      omega

lemma parse_putn_operand_length (input : Str) (st : Statement) (r : Str)
    (h : parse_putn_operand input = .ok (st, r)) : r.length ≤ input.length := by
  unfold parse_putn_operand at h
  split at h
  · cases h
  · rename_i value rest1 hval
    have h1 : rest1.length ≤ input.length := parse_value_length _ _ _ hval
    split at h
    · cases h
    · rename_i rest2 hef
      cases h
      have h2 := skip_extra_field_length _ _ hef
      omega

lemma parse_halt_operand_length (input : Str) (st : Statement) (r : Str)
    (h : parse_halt_operand input = .ok (st, r)) : r.length ≤ input.length := by
  unfold parse_halt_operand at h
  split at h
  · cases h
  · rename_i rest1 hef
    cases h
    exact skip_extra_field_length _ _ hef

lemma parse_mnemonic_length (input : Str) (m : Mnemonic) (r : Str)
    (h : parse_mnemonic input = .ok (m, r)) : r.length < input.length := by
  unfold parse_mnemonic at h
  rcases hw : parse_while input Char.isAlphanum with ⟨a, b⟩
  rw [hw] at h
  simp only [] at h
  have hlt : a ≠ [] → b.length < input.length := by
    intro hne
    have h2 := parse_while_snd_lt input Char.isAlphanum (by rw [hw]; exact hne)
    rwa [hw] at h2
  split at h
  · rename_i ha
    cases h
    exact hlt (by rw [ha]; decide)
  · split at h
    · rename_i ha
      cases h
      exact hlt (by rw [ha]; decide)
    · split at h
      · rename_i ha
        cases h
        exact hlt (by rw [ha]; decide)
      · split at h
        · rename_i ha
          cases h
          exact hlt (by rw [ha]; decide)
        · split at h
          · rename_i ha
            cases h
            exact hlt (by rw [ha]; decide)
          · split at h
            · rename_i ha
              cases h
              exact hlt (by rw [ha]; decide)
            · cases h

lemma parse_command_length (input : Str) (st : Statement) (r : Str)
    (h : parse_command input = .ok (st, r)) : r.length < input.length := by
  unfold parse_command at h
  split at h
  · cases h
  · rename_i m rest1 hmn
    have h1 : rest1.length < input.length := parse_mnemonic_length _ _ _ hmn
    have h2 := skip_space_length rest1
    split at h
    · have h3 := parse_incr_operand_length _ _ _ h
      omega
    · have h3 := parse_decr_operand_length _ _ _ h
      omega
    · have h3 := parse_save_operand_length _ _ _ h
      omega
    · have h3 := parse_putc_operand_length _ _ _ h
      omega
    · have h3 := parse_putn_operand_length _ _ _ h
      omega
    · have h3 := parse_halt_operand_length _ _ _ h
      omega

lemma parse_line_aux_rest_lt (fuel : Nat) (input : Str) (line : Line) (rest : Str)
    (h : parse_line_aux fuel input = .ok (line, rest)) :
    rest.length < input.length := by
  induction fuel generalizing input line rest with
  | zero => cases h
  | succ n ih =>
      unfold parse_line_aux at h
      split at h
      · cases h
      · rename_i label rest1 hlab
        have h1 : rest1.length ≤ input.length := parse_label_length _ _ _ hlab
        have h2 := skip_space_length rest1
        split at h
        · rename_i ch tl hsk
          split at h
          · split at h
            · have h3 := ih _ _ _ h
              have h4 : (skip_comment (ch :: tl)).length < (ch :: tl).length :=
                skip_comment_lt ch tl
              have h5 : (ch :: tl).length = (skip_space rest1).length := by
                rw [hsk]
              omega
            · cases h
          · split at h
            · cases h
            · rename_i command rest2 hcmd
              cases h
              have h3 := parse_command_length _ _ _ hcmd
              have h5 : (ch :: tl).length = (skip_space rest1).length := by
                rw [hsk]
              omega
        · cases h

lemma parse_line_aux_fuel (f1 : Nat) :
    ∀ (f2 : Nat) (input : Str), input.length < f1 → input.length < f2 →
      parse_line_aux f1 input = parse_line_aux f2 input := by
  induction f1 with
  | zero => intro f2 input h1; cases h1
  | succ n ih =>
      intro f2 input h1 h2
      cases f2 with
      | zero => cases h2
      | succ m =>
          unfold parse_line_aux
          cases hlab : parse_label input with
          | error e => rfl
          | ok p =>
              rcases p with ⟨label, rest1⟩
              have hr1 : rest1.length ≤ input.length :=
                parse_label_length _ _ _ hlab
              simp only []
              cases hsk : skip_space rest1 with
              | nil => rfl
              | cons ch tl =>
                  have hsklen : (ch :: tl).length ≤ rest1.length := by
                    rw [← hsk]
                    exact skip_space_length rest1
                  simp only []
                  by_cases hc : (ch == ';' || ch == '\n') = true
                  · simp only [if_pos hc]
                    cases label with
                    | some l => rfl
                    | none =>
                        have hclt := skip_comment_lt ch tl
                        refine ih m (skip_comment (ch :: tl)) ?_ ?_ <;>
                          simp only [List.length_cons] at hsklen hclt <;> omega
                  · simp only [if_neg hc]

lemma parse_aux_fuel (f1 : Nat) :
    ∀ (f2 : Nat) (input : Str), input.length < f1 → input.length < f2 →
      parse_aux f1 input = parse_aux f2 input := by
  induction f1 with
  | zero => intro f2 input h1; cases h1
  | succ n ih =>
      intro f2 input h1 h2
      cases f2 with
      | zero => cases h2
      | succ m =>
          unfold parse_aux
          rw [parse_line_aux_fuel (n + 1) (m + 1) input h1 h2]
          cases hline : parse_line_aux (m + 1) input with
          | error e => cases e <;> rfl
          | ok p =>
              rcases p with ⟨line, rest⟩
              have hlt : rest.length < input.length :=
                parse_line_aux_rest_lt _ _ _ _ hline
              simp only []
              rw [ih m rest (by omega) (by omega)]

/-
The fuel `input.length + 1` used by `parse` is as good as any larger one:
the model is never cut short by its fuel.
-/
lemma parse_eq_parse_aux (input : Str) (fuel : Nat) (h : input.length < fuel) :
    parse input = parse_aux fuel input :=
  parse_aux_fuel (input.length + 1) fuel input (by omega) h

lemma parse_line_eq_parse_line_aux (input : Str) (fuel : Nat)
    (h : input.length < fuel) :
    parse_line input = parse_line_aux fuel input :=
  parse_line_aux_fuel (input.length + 1) fuel input (by omega) h

lemma beq_false_of_isDigit (c g : Char) (h : c.isDigit = true)
    (hg : g.isDigit = false) : (c == g) = false := by
  rw [beq_eq_false_iff_ne]
  intro hc
  subst hc
  rw [h] at hg
  cases hg

lemma parse_while_append (p : Char → Bool) (xs rest : Str)
    (h1 : ∀ c ∈ xs, p c = true) (h2 : ∀ c, rest.head? = some c → p c = false) :
    parse_while (xs ++ rest) p = (xs, rest) := by
  induction xs with
  | nil =>
      cases rest with
      | nil => rfl
      | cons c t =>
          have := h2 c rfl
          simp [parse_while, this]
  | cons c t ih =>
      have hc := h1 c (List.mem_cons_self c t)
      simp [parse_while, hc, ih (fun d hd => h1 d (List.mem_cons_of_mem c hd))]

lemma skip_space_nil : skip_space [] = [] := rfl

lemma skip_space_space (t : Str) : skip_space (' ' :: t) = skip_space t := rfl

lemma skip_space_cons (c : Char) (t : Str) (h : (c == ' ' || c == '\t') = false) :
    skip_space (c :: t) = c :: t := by
  simp [skip_space, parse_skip, h]

lemma digitChar_toNat (d : Nat) (h : d < 10) : (digitChar d).toNat = 48 + d := by
  interval_cases d <;> decide

lemma digitChar_isDigit (d : Nat) (h : d < 10) : (digitChar d).isDigit = true := by
  interval_cases d <;> decide

lemma digitChar_ne_zero (d : Nat) (h0 : d ≠ 0) (h : d < 10) : digitChar d ≠ '0' := by
  interval_cases d <;> simp_all <;> decide

lemma natDec_ne_nil (n : Nat) : natDec n ≠ [] := by
  rw [natDec]
  split <;> simp

lemma natDec_mem_isDigit (n : Nat) : ∀ c ∈ natDec n, c.isDigit = true := by
  induction n using Nat.strong_induction_on with
  | _ n ih =>
      rw [natDec]
      split
      · intro c hc
        rw [List.mem_singleton] at hc
        subst hc
        exact digitChar_isDigit n (by omega)
      · intro c hc
        rcases List.mem_append.mp hc with hm | hm
        · exact ih (n / 10) (by omega) c hm
        · rw [List.mem_singleton] at hm
          subst hm
          exact digitChar_isDigit (n % 10) (by omega)

lemma natDec_head_ne_zero (n : Nat) (h0 : n ≠ 0) :
    ∀ c, (natDec n).head? = some c → c ≠ '0' := by
  induction n using Nat.strong_induction_on with
  | _ n ih =>
      rw [natDec]
      split
      · intro c hc
        simp only [List.head?_cons, Option.some.injEq] at hc
        subst hc
        exact digitChar_ne_zero n h0 (by assumption)
      · intro c hc
        obtain ⟨d, ds, hds⟩ := List.exists_cons_of_ne_nil (natDec_ne_nil (n / 10))
        rw [hds] at hc
        simp only [List.cons_append, List.head?_cons, Option.some.injEq] at hc
        subst hc
        have := ih (n / 10) (by omega) (by omega) d
        rw [hds] at this
        exact this rfl

lemma digitsToNat_append_singleton (xs : Str) (c : Char) :
    digitsToNat (xs ++ [c]) = digitsToNat xs * 10 + (c.toNat - 48) := by
  simp [digitsToNat, List.foldl_append]

lemma digitsToNat_natDec (n : Nat) : digitsToNat (natDec n) = n := by
  induction n using Nat.strong_induction_on with
  | _ n ih =>
      rw [natDec]
      split
      · show digitsToNat [digitChar n] = n
        simp [digitsToNat, digitChar_toNat n (by omega)]
      · rw [digitsToNat_append_singleton, ih (n / 10) (by omega),
          digitChar_toNat (n % 10) (by omega)]
        omega

lemma natDec_zero : natDec 0 = ['0'] := by
  rw [natDec]
  decide

lemma natDec_zero_check (m : Nat) (rest : Str)
    (hrest : ∀ c, rest.head? = some c → c.isDigit = false) :
    (match parse_one (natDec m ++ rest) (fun ch => ch == '0') with
      | some (_, rest2) => (parse_one rest2 Char.isDigit).isSome
      | none => false) = false := by
  by_cases hm : m = 0
  · subst hm
    rw [natDec_zero]
    simp only [List.cons_append, List.nil_append, parse_one]
    simp only [show (('0' : Char) == '0') = true from rfl, if_true]
    cases rest with
    | nil => rfl
    | cons c t =>
        have := hrest c rfl
        simp [parse_one, this]
  · obtain ⟨d, ds, hds⟩ := List.exists_cons_of_ne_nil (natDec_ne_nil m)
    have hdz : (d == '0') = false := by
      rw [beq_eq_false_iff_ne]
      refine natDec_head_ne_zero m hm d ?_
      rw [hds]
      rfl
    rw [hds]
    simp [parse_one, hdz]

lemma parse_integer_natDec (m : Nat) (rest : Str)
    (hrest : ∀ c, rest.head? = some c → c.isDigit = false) :
    parse_integer (natDec m ++ rest) = Except.ok (Int.ofNat m, rest) := by
  obtain ⟨d, ds, hds⟩ := List.exists_cons_of_ne_nil (natDec_ne_nil m)
  have hd_digit : d.isDigit = true := by
    refine natDec_mem_isDigit m d ?_
    rw [hds]
    exact List.mem_cons_self _ _
  have hneg : (d == '-') = false := beq_false_of_isDigit d '-' hd_digit (by decide)
  have hone : parse_one (natDec m ++ rest) (fun ch => ch == '-') = none := by
    rw [hds]
    simp [parse_one, hneg]
  have honeD : parse_one (natDec m ++ rest) Char.isDigit = some (d, ds ++ rest) := by
    rw [hds]
    simp [parse_one, hd_digit]
  have hwhile : parse_while (natDec m ++ rest) Char.isDigit = (natDec m, rest) :=
    parse_while_append _ _ _ (natDec_mem_isDigit m) hrest
  unfold parse_integer
  simp only [hone, Option.getD_none, natDec_zero_check m rest hrest, honeD,
    hwhile, digitsToNat_natDec]
  rfl

lemma parse_integer_print (n : Int) (rest : Str)
    (hrest : ∀ c, rest.head? = some c → c.isDigit = false) :
    parse_integer (printNumber n ++ rest) = Except.ok (n, rest) := by
  rcases le_or_lt 0 n with h | h
  · rw [printNumber, if_neg (not_lt.mpr h), parse_integer_natDec n.natAbs rest hrest]
    have he : Int.ofNat n.natAbs = n := by
      simp only [Int.ofNat_eq_natCast]
      omega
    rw [he]
  · rw [printNumber, if_pos h]
    obtain ⟨d, ds, hds⟩ := List.exists_cons_of_ne_nil (natDec_ne_nil n.natAbs)
    have honeD : parse_one (natDec n.natAbs ++ rest) Char.isDigit
        = some (d, ds ++ rest) := by
      have hd_digit : d.isDigit = true := by
        refine natDec_mem_isDigit n.natAbs d ?_
        rw [hds]
        exact List.mem_cons_self _ _
      rw [hds]
      simp [parse_one, hd_digit]
    have hwhile : parse_while (natDec n.natAbs ++ rest) Char.isDigit
        = (natDec n.natAbs, rest) :=
      parse_while_append _ _ _ (natDec_mem_isDigit n.natAbs) hrest
    have hone2 : parse_one ('-' :: (natDec n.natAbs ++ rest)) (fun ch => ch == '-')
        = some ('-', natDec n.natAbs ++ rest) := by
      simp [parse_one]
    unfold parse_integer
    simp only [List.cons_append, hone2, Option.getD_some,
      natDec_zero_check n.natAbs rest hrest, honeD, hwhile, digitsToNat_natDec]
    have he : -Int.ofNat n.natAbs = n := by
      simp only [Int.ofNat_eq_natCast]
      omega
    simp [he]
    rw [abs_of_neg h, neg_neg]

lemma parse_one_cons (c : Char) (t : Str) (p : Char → Bool) :
    parse_one (c :: t) p = if p c then some (c, t) else none := rfl

lemma printNumber_head (n : Int) :
    ∃ c t, printNumber n = c :: t ∧ (c = '-' ∨ c.isDigit = true) := by
  unfold printNumber
  split
  · exact ⟨'-', natDec n.natAbs, rfl, Or.inl rfl⟩
  · obtain ⟨d, ds, hds⟩ := List.exists_cons_of_ne_nil (natDec_ne_nil n.natAbs)
    refine ⟨d, ds, hds, Or.inr ?_⟩
    refine natDec_mem_isDigit n.natAbs d ?_
    rw [hds]
    exact List.mem_cons_self _ _

lemma parse_one_printNumber_ne (n : Int) (X : Str) (g : Char)
    (hg1 : ('-' == g) = false) (hg2 : g.isDigit = false) :
    parse_one (printNumber n ++ X) (fun ch => ch == g) = none := by
  obtain ⟨c, t, hct, hc⟩ := printNumber_head n
  rw [hct]
  rcases hc with rfl | hc
  · simp [parse_one, hg1]
  · simp [parse_one, beq_false_of_isDigit c g hc hg2]

lemma skip_space_printNumber (n : Int) (X : Str) :
    skip_space (printNumber n ++ X) = printNumber n ++ X := by
  obtain ⟨c, t, hct, hc⟩ := printNumber_head n
  rw [hct]
  refine skip_space_cons c _ ?_
  rcases hc with rfl | hc
  · decide
  · rw [Bool.or_eq_false_iff]
    exact ⟨beq_false_of_isDigit c ' ' hc (by decide),
      beq_false_of_isDigit c '\t' hc (by decide)⟩

lemma skip_space_print_index (i : Index) (X : Str) :
    skip_space (print_index i ++ X) = print_index i ++ X := by
  cases i with
  | Direct n => exact skip_space_printNumber n X
  | Indirect n =>
      simp only [print_index, List.cons_append]
      rw [skip_space_cons '[' _ (by decide)]

lemma skip_space_print_value (v : Value) (hres : v.isResolved = true) (X : Str) :
    skip_space (print_value v ++ X) = print_value v ++ X := by
  cases v with
  | Immediate n => exact skip_space_printNumber n X
  | Register n =>
      simp only [print_value, List.cons_append]
      rw [skip_space_cons '[' _ (by decide)]
  | Pointer n =>
      simp only [print_value, List.cons_append]
      rw [skip_space_cons '[' _ (by decide)]
  | Label s => cases hres
  | ProgramCounter => cases hres

lemma skip_space_print_address (a : Address) (hres : a.isResolved = true) (X : Str) :
    skip_space (print_address a ++ X) = print_address a ++ X := by
  cases a with
  | Immediate n => exact skip_space_printNumber n X
  | Register n =>
      simp only [print_address, List.cons_append]
      rw [skip_space_cons '[' _ (by decide)]
  | Label s => cases hres
  | ProgramCounter => cases hres

lemma parse_operand_separator_comma (X : Str) (hX : skip_space X = X) :
    parse_operand_separator (',' :: ' ' :: X) = .ok X := by
  unfold parse_operand_separator
  rw [skip_space_cons ',' _ (by decide)]
  simp [parse_one, skip_space_space, hX]

lemma skip_extra_field_newline (rest : Str) :
    skip_extra_field ('\n' :: rest) = .ok rest := by
  unfold skip_extra_field
  rw [skip_space_cons '\n' rest (by decide)]
  simp [skip_comment, parse_skip_until]

lemma parse_index_print (i : Index) (rest : Str)
    (hrest : ∀ c, rest.head? = some c → c.isDigit = false) :
    parse_index (print_index i ++ rest) = .ok (i, rest) := by
  cases i with
  | Direct n =>
      unfold parse_index
      rw [show print_index (Index.Direct n) = printNumber n from rfl,
        parse_one_printNumber_ne n rest '[' (by decide) (by decide),
        parse_integer_print n rest hrest]
  | Indirect n =>
      simp only [print_index, List.cons_append, List.append_assoc,
        List.singleton_append, List.nil_append]
      unfold parse_index
      simp only [parse_one_cons, show (('[' : Char) == '[') = true from rfl,
        if_true, skip_space_printNumber,
        parse_integer_print n (']' :: rest) (fun c hc => by cases hc; decide),
        skip_space_cons ']' rest (by decide),
        show ((']' : Char) == ']') = true from rfl]

lemma parse_value_print (v : Value) (hres : v.isResolved = true) (rest : Str)
    (hrest : ∀ c, rest.head? = some c → c.isDigit = false) :
    parse_value (print_value v ++ rest) = .ok (v, rest) := by
  cases v with
  | Immediate n =>
      unfold parse_value
      rw [show print_value (Value.Immediate n) = printNumber n from rfl,
        parse_one_printNumber_ne n rest '[' (by decide) (by decide),
        parse_integer_print n rest hrest]
  | Register n =>
      simp only [print_value, List.cons_append, List.append_assoc,
        List.singleton_append, List.nil_append]
      unfold parse_value
      simp only [parse_one_cons, show (('[' : Char) == '[') = true from rfl,
        if_true,
        parse_one_printNumber_ne n (']' :: rest) '[' (by decide) (by decide),
        skip_space_printNumber,
        parse_integer_print n (']' :: rest) (fun c hc => by cases hc; decide),
        skip_space_cons ']' rest (by decide),
        show ((']' : Char) == ']') = true from rfl]
  | Pointer n =>
      simp only [print_value, List.cons_append, List.append_assoc,
        List.singleton_append, List.nil_append]
      unfold parse_value
      simp only [parse_one_cons, show (('[' : Char) == '[') = true from rfl,
        if_true, skip_space_printNumber,
        parse_integer_print n (']' :: ']' :: rest)
          (fun c hc => by cases hc; decide),
        skip_space_cons ']' (']' :: rest) (by decide),
        show ((']' : Char) == ']') = true from rfl]
  | Label s => cases hres
  | ProgramCounter => cases hres

lemma parse_address_print (a : Address) (hres : a.isResolved = true) (rest : Str)
    (hrest : ∀ c, rest.head? = some c → c.isDigit = false) :
    parse_address (print_address a ++ rest) = .ok (a, rest) := by
  cases a with
  | Immediate n =>
      unfold parse_address
      rw [show print_address (Address.Immediate n) = printNumber n from rfl,
        parse_one_printNumber_ne n rest '[' (by decide) (by decide),
        parse_integer_print n rest hrest]
  | Register n =>
      simp only [print_address, List.cons_append, List.append_assoc,
        List.singleton_append, List.nil_append]
      unfold parse_address
      simp only [parse_one_cons, show (('[' : Char) == '[') = true from rfl,
        if_true, skip_space_printNumber,
        parse_integer_print n (']' :: rest) (fun c hc => by cases hc; decide),
        skip_space_cons ']' rest (by decide),
        show ((']' : Char) == ']') = true from rfl]
  | Label s => cases hres
  | ProgramCounter => cases hres

lemma beq_false_of_isAlpha (c g : Char) (h : c.isAlpha = true)
    (hg : g.isAlpha = false) : (c == g) = false := by
  rw [beq_eq_false_iff_ne]
  intro hc
  subst hc
  rw [h] at hg
  cases hg

lemma print_statement_cons (st : Statement) (X : Str) :
    ∃ c t, print_statement st ++ X = c :: t ∧ c.isAlpha = true := by
  cases st <;> exact ⟨_, _, rfl, by decide⟩

lemma skip_space_print_statement (st : Statement) (X : Str) :
    skip_space (print_statement st ++ X) = print_statement st ++ X := by
  obtain ⟨c, t, hct, hca⟩ := print_statement_cons st X
  rw [hct]
  refine skip_space_cons c t ?_
  rw [Bool.or_eq_false_iff]
  exact ⟨beq_false_of_isAlpha c ' ' hca (by decide),
    beq_false_of_isAlpha c '\t' hca (by decide)⟩

lemma parse_label_space (X : Str) : parse_label (' ' :: X) = .ok (none, ' ' :: X) := by
  unfold parse_label
  simp [parse_one_cons, show ((' ' : Char).isAlpha) = false from rfl,
    show is_space ' ' = true from rfl]

lemma parse_command_print (st : Statement) (hres : st.isResolved = true)
    (rest : Str) :
    parse_command (print_statement st ++ '\n' :: rest) = .ok (st, rest) := by
  cases st with
  | Incr i v =>
      simp only [print_statement, List.cons_append, List.append_assoc,
        List.nil_append]
      have hmn : parse_while
          ('i' :: 'n' :: 'c' :: 'r' :: ' ' ::
            (print_index i ++ ',' :: ' ' :: (print_value v ++ '\n' :: rest)))
          Char.isAlphanum
          = (['i', 'n', 'c', 'r'],
            ' ' :: (print_index i ++ ',' :: ' ' :: (print_value v ++ '\n' :: rest))) :=
        parse_while_append Char.isAlphanum ['i', 'n', 'c', 'r'] _
          (by decide) (fun c hc => by cases hc; decide)
      unfold parse_command parse_mnemonic
      simp only [hmn, if_pos (show (['i', 'n', 'c', 'r'] : Str) = "incr".toList
        from by decide)]
      rw [skip_space_space, skip_space_print_index]
      unfold parse_incr_operand
      simp only [parse_index_print i
          (',' :: ' ' :: (print_value v ++ '\n' :: rest))
          (fun c hc => by cases hc; decide),
        parse_operand_separator_comma _ (skip_space_print_value v hres _),
        parse_value_print v hres ('\n' :: rest) (fun c hc => by cases hc; decide),
        skip_space_cons '\n' rest (by decide), skip_extra_field_newline]
  | Decr i a v =>
      simp only [Statement.isResolved, Bool.and_eq_true] at hres
      simp only [print_statement, List.cons_append, List.append_assoc,
        List.nil_append]
      have hmn : parse_while
          ('d' :: 'e' :: 'c' :: 'r' :: ' ' ::
            (print_index i ++ ',' :: ' ' ::
              (print_address a ++ ',' :: ' ' :: (print_value v ++ '\n' :: rest))))
          Char.isAlphanum
          = (['d', 'e', 'c', 'r'],
            ' ' :: (print_index i ++ ',' :: ' ' ::
              (print_address a ++ ',' :: ' ' :: (print_value v ++ '\n' :: rest)))) :=
        parse_while_append Char.isAlphanum ['d', 'e', 'c', 'r'] _
          (by decide) (fun c hc => by cases hc; decide)
      unfold parse_command parse_mnemonic
      simp only [hmn,
        if_neg (show ¬ (['d', 'e', 'c', 'r'] : Str) = "incr".toList from by decide),
        if_pos (show (['d', 'e', 'c', 'r'] : Str) = "decr".toList from by decide)]
      rw [skip_space_space, skip_space_print_index]
      unfold parse_decr_operand
      simp only [parse_index_print i
          (',' :: ' ' :: (print_address a ++ ',' :: ' ' ::
            (print_value v ++ '\n' :: rest)))
          (fun c hc => by cases hc; decide),
        parse_operand_separator_comma _ (skip_space_print_address a hres.1 _),
        parse_address_print a hres.1
          (',' :: ' ' :: (print_value v ++ '\n' :: rest))
          (fun c hc => by cases hc; decide),
        parse_operand_separator_comma _ (skip_space_print_value v hres.2 _),
        parse_value_print v hres.2 ('\n' :: rest) (fun c hc => by cases hc; decide),
        skip_extra_field_newline]
  | Save i v =>
      simp only [print_statement, List.cons_append, List.append_assoc,
        List.nil_append]
      have hmn : parse_while
          ('s' :: 'a' :: 'v' :: 'e' :: ' ' ::
            (print_index i ++ ',' :: ' ' :: (print_value v ++ '\n' :: rest)))
          Char.isAlphanum
          = (['s', 'a', 'v', 'e'],
            ' ' :: (print_index i ++ ',' :: ' ' :: (print_value v ++ '\n' :: rest))) :=
        parse_while_append Char.isAlphanum ['s', 'a', 'v', 'e'] _
          (by decide) (fun c hc => by cases hc; decide)
      unfold parse_command parse_mnemonic
      simp only [hmn,
        if_neg (show ¬ (['s', 'a', 'v', 'e'] : Str) = "incr".toList from by decide),
        if_neg (show ¬ (['s', 'a', 'v', 'e'] : Str) = "decr".toList from by decide),
        if_pos (show (['s', 'a', 'v', 'e'] : Str) = "save".toList from by decide)]
      rw [skip_space_space, skip_space_print_index]
      unfold parse_save_operand
      simp only [parse_index_print i
          (',' :: ' ' :: (print_value v ++ '\n' :: rest))
          (fun c hc => by cases hc; decide),
        parse_operand_separator_comma _ (skip_space_print_value v hres _),
        parse_value_print v hres ('\n' :: rest) (fun c hc => by cases hc; decide),
        skip_extra_field_newline]
  | Putc v =>
      simp only [print_statement, List.cons_append, List.append_assoc,
        List.nil_append]
      have hmn : parse_while
          ('p' :: 'u' :: 't' :: 'c' :: ' ' :: (print_value v ++ '\n' :: rest))
          Char.isAlphanum
          = (['p', 'u', 't', 'c'], ' ' :: (print_value v ++ '\n' :: rest)) :=
        parse_while_append Char.isAlphanum ['p', 'u', 't', 'c'] _
          (by decide) (fun c hc => by cases hc; decide)
      unfold parse_command parse_mnemonic
      simp only [hmn,
        if_neg (show ¬ (['p', 'u', 't', 'c'] : Str) = "incr".toList from by decide),
        if_neg (show ¬ (['p', 'u', 't', 'c'] : Str) = "decr".toList from by decide),
        if_neg (show ¬ (['p', 'u', 't', 'c'] : Str) = "save".toList from by decide),
        if_pos (show (['p', 'u', 't', 'c'] : Str) = "putc".toList from by decide)]
      rw [skip_space_space, skip_space_print_value v hres]
      unfold parse_putc_operand
      simp only [parse_value_print v hres ('\n' :: rest)
          (fun c hc => by cases hc; decide),
        skip_extra_field_newline]
  | Putn v =>
      simp only [print_statement, List.cons_append, List.append_assoc,
        List.nil_append]
      have hmn : parse_while
          ('p' :: 'u' :: 't' :: 'n' :: ' ' :: (print_value v ++ '\n' :: rest))
          Char.isAlphanum
          = (['p', 'u', 't', 'n'], ' ' :: (print_value v ++ '\n' :: rest)) :=
        parse_while_append Char.isAlphanum ['p', 'u', 't', 'n'] _
          (by decide) (fun c hc => by cases hc; decide)
      unfold parse_command parse_mnemonic
      simp only [hmn,
        if_neg (show ¬ (['p', 'u', 't', 'n'] : Str) = "incr".toList from by decide),
        if_neg (show ¬ (['p', 'u', 't', 'n'] : Str) = "decr".toList from by decide),
        if_neg (show ¬ (['p', 'u', 't', 'n'] : Str) = "save".toList from by decide),
        if_neg (show ¬ (['p', 'u', 't', 'n'] : Str) = "putc".toList from by decide),
        if_pos (show (['p', 'u', 't', 'n'] : Str) = "putn".toList from by decide)]
      rw [skip_space_space, skip_space_print_value v hres]
      unfold parse_putn_operand
      simp only [parse_value_print v hres ('\n' :: rest)
          (fun c hc => by cases hc; decide),
        skip_extra_field_newline]
  | Halt =>
      simp only [print_statement, List.cons_append, List.nil_append]
      have hmn : parse_while ('h' :: 'a' :: 'l' :: 't' :: '\n' :: rest)
          Char.isAlphanum
          = (['h', 'a', 'l', 't'], '\n' :: rest) :=
        parse_while_append Char.isAlphanum ['h', 'a', 'l', 't'] _
          (by decide) (fun c hc => by cases hc; decide)
      unfold parse_command parse_mnemonic
      simp only [hmn,
        if_neg (show ¬ (['h', 'a', 'l', 't'] : Str) = "incr".toList from by decide),
        if_neg (show ¬ (['h', 'a', 'l', 't'] : Str) = "decr".toList from by decide),
        if_neg (show ¬ (['h', 'a', 'l', 't'] : Str) = "save".toList from by decide),
        if_neg (show ¬ (['h', 'a', 'l', 't'] : Str) = "putc".toList from by decide),
        if_neg (show ¬ (['h', 'a', 'l', 't'] : Str) = "putn".toList from by decide),
        if_pos (show (['h', 'a', 'l', 't'] : Str) = "halt".toList from by decide)]
      rw [skip_space_cons '\n' rest (by decide)]
      unfold parse_halt_operand
      simp only [skip_extra_field_newline]

lemma parse_line_print (fuel : Nat) (st : Statement) (hres : st.isResolved = true)
    (rest : Str) :
    parse_line_aux (fuel + 1) (' ' :: (print_statement st ++ '\n' :: rest))
      = .ok (⟨none, st⟩, rest) := by
  obtain ⟨c, t, hct, hca⟩ := print_statement_cons st ('\n' :: rest)
  unfold parse_line_aux
  rw [parse_label_space]
  simp only []
  rw [skip_space_space, skip_space_print_statement, hct]
  simp only [Bool.or_eq_false_iff.mpr
    ⟨beq_false_of_isAlpha c ';' hca (by decide),
      beq_false_of_isAlpha c '\n' hca (by decide)⟩, Bool.false_eq_true, if_false]
  rw [← hct, parse_command_print st hres rest]

lemma parse_line_aux_nil (fuel : Nat) :
    parse_line_aux (fuel + 1) [] = .error .EndOfProgram := rfl

lemma printProgramIndented_cons (st : Statement) (ss : List Statement) :
    printProgramIndented (st :: ss)
      = ' ' :: (print_statement st ++ '\n' :: printProgramIndented ss) := by
  simp [printProgramIndented, List.join, List.append_assoc]

lemma printProgramIndented_length (p : List Statement) :
    p.length ≤ (printProgramIndented p).length := by
  induction p with
  | nil => simp [printProgramIndented, List.join]
  | cons st ss ih =>
      rw [printProgramIndented_cons]
      simp only [List.length_cons, List.length_append]
      omega

lemma parse_aux_print (p : List Statement) (hres : ∀ st ∈ p, st.isResolved = true) :
    ∀ fuel, p.length < fuel →
      parse_aux fuel (printProgramIndented p) = .ok (toLines p) := by
  induction p with
  | nil =>
      intro fuel hf
      cases fuel with
      | zero => cases hf
      | succ f =>
          show parse_aux (f + 1) (printProgramIndented []) = _
          rw [show printProgramIndented [] = [] from rfl]
          unfold parse_aux
          rw [parse_line_aux_nil]
          rfl
  | cons st ss ih =>
      intro fuel hf
      cases fuel with
      | zero => cases hf
      | succ f =>
          rw [printProgramIndented_cons]
          unfold parse_aux
          rw [parse_line_print f st (hres st (List.mem_cons_self st ss)) _]
          simp only []
          rw [ih (fun s hs => hres s (List.mem_cons_of_mem st hs)) f
            (by simpa using hf)]
          rfl

lemma value_solve_resolved_id (v : Value) (hres : v.isResolved = true)
    (labels : Str → Option Number) (pc : Nat) : v.solve labels pc = some v := by
  cases v with
  | Label s => cases hres
  | ProgramCounter => cases hres
  | Immediate n => rfl
  | Register n => rfl
  | Pointer n => rfl

lemma address_solve_resolved_id (a : Address) (hres : a.isResolved = true)
    (labels : Str → Option Number) (pc : Nat) : a.solve labels pc = some a := by
  cases a with
  | Label s => cases hres
  | ProgramCounter => cases hres
  | Immediate n => rfl
  | Register n => rfl

lemma solveStatement_resolved_id (labels : Str → Option Number) (pc : Nat)
    (st : Statement) (hres : st.isResolved = true) :
    solveStatement labels pc st = some st := by
  cases st with
  | Incr i v => simp [solveStatement, value_solve_resolved_id v hres]
  | Decr i a v =>
      simp only [Statement.isResolved, Bool.and_eq_true] at hres
      simp [solveStatement, address_solve_resolved_id a hres.1,
        value_solve_resolved_id v hres.2]
  | Save i v => simp [solveStatement, value_solve_resolved_id v hres]
  | Putc v => simp [solveStatement, value_solve_resolved_id v hres]
  | Putn v => simp [solveStatement, value_solve_resolved_id v hres]
  | Halt => rfl

lemma resolveLines_toLines (labels : Str → Option Number) :
    ∀ (p : List Statement) (pc : Nat), (∀ st ∈ p, st.isResolved = true) →
      resolveLines labels pc (toLines p) = some p := by
  intro p
  induction p with
  | nil => intro pc hres; rfl
  | cons st ss ih =>
      intro pc hres
      show resolveLines labels pc (⟨none, st⟩ :: toLines ss) = _
      unfold resolveLines
      rw [show (Line.mk none st).statement = st from rfl,
        solveStatement_resolved_id labels pc st (hres st (List.mem_cons_self st ss)),
        ih (pc + 1) (fun s hs => hres s (List.mem_cons_of_mem st hs))]

/-! ## Claim theorems about the parser -/

/--
C5 (evidence for the code bug): after the final operand, only whitespace
plus an optional comment should be accepted.  `save` (like `decr`, `putc`,
`putn` and `halt`) enforces this through `skip_extra_field`, but the
one-operand default branch of `parse_incr_operand` returns its rest without
that check, so the trailing token after ` incr 0` is re-parsed as a fresh
line: ` incr 0 halt` is accepted as the two statements `incr 0, 1` and
`halt` instead of being rejected.
-/
theorem incr_trailing_token_accepted :
    parse " incr 0 halt".toList
        = .ok [⟨none, .Incr (Index.Direct 0) (Value.Immediate 1)⟩, ⟨none, .Halt⟩] ∧
    parse " save 0, 1 halt".toList = .error .ExtraOperand := by
  exact ⟨by decide, by decide⟩

/--
C8 (counterexample): parsing the canonical print of the resolved program
`[halt]` does not yield an equivalent program; it fails with `LabelOnly`,
because the printer emits the mnemonic in column 0 where the parser reads a
line label.
-/
theorem print_parse_roundtrip_fails :
    parse (printProgram [Statement.Halt]) = .error ParseError.LabelOnly := by
  decide

/--
C8 (amended): for every resolved program `P`, parsing the canonical print of
`P` with a single space prepended to each line (the print itself places the
mnemonic in column 0, where the parser reads a line label — see the
counterexample) yields the label-free AST of `P`, and resolving that AST
yields exactly `P`'s statement sequence.
-/
theorem print_parse_roundtrip_indented (p : List Statement)
    (hres : ∀ st ∈ p, st.isResolved = true) :
    parse (printProgramIndented p) = .ok (toLines p) ∧
    Program.new (toLines p) = some p := by
  constructor
  · unfold parse
    exact parse_aux_print p hres ((printProgramIndented p).length + 1)
      (by have := printProgramIndented_length p; omega)
  · unfold Program.new
    exact resolveLines_toLines (collectLabels (toLines p)) p 0 hres

/-- Witness for C8's amended claim at a concrete two-statement program. -/
theorem print_parse_roundtrip_indented_witness :
    parse (printProgramIndented
        [Statement.Incr (Index.Direct 0) (Value.Immediate 1), Statement.Halt])
      = .ok (toLines
        [Statement.Incr (Index.Direct 0) (Value.Immediate 1), Statement.Halt]) ∧
    Program.new (toLines
        [Statement.Incr (Index.Direct 0) (Value.Immediate 1), Statement.Halt])
      = some [Statement.Incr (Index.Direct 0) (Value.Immediate 1), Statement.Halt] :=
  print_parse_roundtrip_indented
    [Statement.Incr (Index.Direct 0) (Value.Immediate 1), Statement.Halt]
    (by decide)

/--
C10 (amended): `parse_identifier` never returns an error (its leading-letter
check is discarded), so the parser can never return `ExpectValue`,
`ExpectAddress` or `InvalidIdentifier`; a `Value` or `Address` operand
position whose text is neither an integer nor a bracketed form parses as
the (possibly empty) leading run of ASCII alphanumerics — as
`ProgramCounter` when that run is exactly `pc`, as a `Label` of the run
otherwise.
-/
theorem parse_identifier_never_fails :
    (∀ input : Str, parse_identifier input = .ok (parse_while input Char.isAlphanum)) ∧
    (∀ (input : Str) (e : ParseError), parse input = .error e →
      ¬ operandSyntaxError e) ∧
    (∀ input : Str, parse_one input (fun ch => ch == '[') = none →
      (∃ e2, parse_integer input = .error e2) →
      parse_value input = .ok
        (if (parse_while input Char.isAlphanum).1 = "pc".toList
         then Value.ProgramCounter
         else Value.Label (parse_while input Char.isAlphanum).1,
         (parse_while input Char.isAlphanum).2)) ∧
    (∀ input : Str, parse_one input (fun ch => ch == '[') = none →
      (∃ e2, parse_integer input = .error e2) →
      parse_address input = .ok
        (if (parse_while input Char.isAlphanum).1 = "pc".toList
         then Address.ProgramCounter
         else Address.Label (parse_while input Char.isAlphanum).1,
         (parse_while input Char.isAlphanum).2)) := by
  refine ⟨parse_identifier_ok, fun input e h => parse_aux_error _ _ _ h, ?_, ?_⟩
  · intro input hb he
    obtain ⟨e2, he⟩ := he
    rcases hw : parse_while input Char.isAlphanum with ⟨ident, rest⟩
    unfold parse_value
    simp only [hb, he, parse_identifier_ok, hw]
    split <;> rfl
  · intro input hb he
    obtain ⟨e2, he⟩ := he
    rcases hw : parse_while input Char.isAlphanum with ⟨ident, rest⟩
    unfold parse_address
    simp only [hb, he, parse_identifier_ok, hw]
    split <;> rfl

/-- Witness for C10 at concrete inputs. -/
theorem parse_identifier_never_fails_witness :
    parse_identifier ['&'] = .ok ([], ['&']) ∧
    parse_value ['&'] = .ok (Value.Label [], ['&']) ∧
    parse_address [','] = .ok (Address.Label [], [',']) ∧
    ¬ operandSyntaxError .ExtraZero := by
  obtain ⟨h1, h2, h3, h4⟩ := parse_identifier_never_fails
  refine ⟨(h1 ['&']).trans (by decide),
    (h3 ['&'] (by decide) ⟨.ExpectInteger, by decide⟩).trans (by decide),
    (h4 [','] (by decide) ⟨.ExpectInteger, by decide⟩).trans (by decide),
    h2 " incr 01".toList .ExtraZero (by decide)⟩

/--
C10 (counterexample): a `Value` operand whose text is neither an integer
nor a bracketed form does not always parse as a `Label` of the leading
alphanumeric run — the run `pc` parses as the `ProgramCounter` operand.
-/
theorem parse_value_pc_not_label :
    parse_value ['p', 'c'] = .ok (Value.ProgramCounter, []) ∧
    ¬ parse_value ['p', 'c'] = .ok (Value.Label ['p', 'c'], []) := by
  exact ⟨by decide, by decide⟩

end Aasm
